import Mathlib

/-!
# Verification of the parsec-prototype asynchronous composition core

This file is a shallow embedding of the run engine and the four requestor
factories of the parsec prototype (src/lib/run.js, src/factories/parallel.js,
src/factories/race.js, src/factories/sequence.js, src/factories/fallback.js,
src/lib/utils.js, src/lib/constants.js), together with theorems settling the
behavioural claims about them.

Modelling conventions:
* JavaScript `undefined` is `Option.none`; sparse JS arrays that are indexed
  by integers are modelled as functions `Nat → Option _` together with an
  explicit length counter where the source reads `.length` or calls `.pop()`.
* Requestors invoke their receivers asynchronously: a child's receiver
  invocations are delivered as separate `Event.complete` steps of a labelled
  transition system, which may occur at any time, in any order, any number of
  times (this is how ill-behaved children that call their receivers several
  times are represented). A synchronous child is the special case where its
  completion event is scheduled directly after its launch.
* The zero-delay task queue used by `immediatelyQueue` (`setTimeout(fn, 0)`)
  is a FIFO queue of pending `startRequestor` tasks inside the engine state;
  an `Event.dispatch` step pops and runs one queued task.
* Invocations of child cancellors are recorded as effects; the `try/catch`
  that swallows exceptions thrown by child cancellors is modelled by the
  engine continuing through the whole cancellor array regardless of each
  cancellor's `throws` flag.
* Everything a claim observes (receiver invocations, action invocations,
  child launches, child-cancellor invocations) is recorded in an effect
  trace returned alongside the post-state.
-/

set_option autoImplicit false

namespace Parsec

/-! ## constants.js -/

/-- `FactoryName.SEQUENCE` (constants.js). -/
def sequenceName : String := "sequence"

/-- `FactoryName.PARALLEL` (constants.js). -/
def parallelName : String := "parallel"

/-- `FactoryName.FALLBACK` (constants.js). -/
def fallbackName : String := "fallback"

/-- `FactoryName.RACE` (constants.js). -/
def raceName : String := "race"

/-- `TimeOption.SKIP_OPTIONALS_IF_TIME_REMAINS` (constants.js). -/
def skipOptionals : String := "skip opts"

/-- `TimeOption.TRY_OPTIONALS_IF_TIME_REMAINS` (constants.js). -/
def tryOptionals : String := "try opts"

/-- `TimeOption.REQUIRE_NECESSITIES` (constants.js). -/
def requireNecessities : String := "require necessities"

/-- The three values of the closed `TimeOption` object (constants.js). -/
def timeOptionValues : List String :=
  [skipOptionals, tryOptionals, requireNecessities]

/-- `allTimeOptions = Object.keys(TimeOption)` (constants.js): note these are
the KEYS of the object, not its values. -/
def allTimeOptions : List String :=
  ["SKIP_OPTIONALS_IF_TIME_REMAINS", "TRY_OPTIONALS_IF_TIME_REMAINS",
   "REQUIRE_NECESSITIES"]

/-! ## utils.js: makeReason -/

/-- Diagnostic payloads carried in the `evidence` property of a reason.
The source stores arbitrary JS values here (an index, a time limit, the
throttle, the offending timeOption, the requestor array); we enumerate the
shapes the engine actually produces. -/
inductive Evidence where
  | idx (i : Nat)
  | time (q : ℚ)
  | numArg (q : ℚ)
  | strArg (s : Option String)
  | arrArg
deriving DecidableEq, Repr

/-- The object returned by `makeReason` (utils.js).  The source builds
`new Error("parseq." + factoryName + excuseText)` and returns
`{ ...error, evidence }`; the spread copies only own *enumerable*
properties, and an `Error`'s `message` (like its `stack` and `name`) is not
enumerable, so nothing of the error survives into the returned object: it
holds the `evidence` property and nothing else.  In particular no factory
tag, no excuse text and no `cause` property is ever attached. -/
structure MadeReason where
  evidence : Option Evidence
deriving DecidableEq, Repr

/-- `makeReason({factoryName, excuse, evidence})` (utils.js lines 40-47).
The source computes `excuseText = exists(excuse) ? "" : (":" + excuse)`
(note the inverted conditional: a *present* excuse contributes nothing) and
builds `new Error("parseq." + factoryName + excuseText)`, but then returns
`{ ...error, evidence }`, and the spread drops every non-enumerable Error
property—`message` included—so `factoryName` and `excuse` do not influence
the returned object at all; the parameters are kept here to mirror the call
sites. -/
def makeReason (_factoryName : Option String) (_excuse : Option String)
    (evidence : Option Evidence) : MadeReason :=
  { evidence := evidence }

/-- A value travelling on a reason channel: either a raw value supplied (or
thrown) by a child requestor, or an object built by `makeReason`. -/
inductive RVal (ρ : Type) where
  | child (r : ρ)
  | made (m : MadeReason)
deriving DecidableEq, Repr

/-! ## Results and receiver messages -/

/-- The `{value, reason}` record a child passes to its receiver. An absent
`value` is the definition of failure. -/
structure ChildResult (α ρ : Type) where
  value : Option α
  reason : Option ρ
deriving DecidableEq, Repr

/-- The `value` slot of the record a composite passes to its receiver:
either a single value (sequence, race) or the array of child results
(parallel). -/
inductive RecvValue (α ρ : Type) where
  | item (a : α)
  | arr (results : List (Option (ChildResult α ρ)))
deriving DecidableEq, Repr

/-- The record a composite passes to its receiver. -/
structure RecvMsg (α ρ : Type) where
  value : Option (RecvValue α ρ)
  reason : Option (RVal ρ)
deriving DecidableEq, Repr

/-! ## Children (requestors) as the engine consumes them -/

/-- A cancellor returned by a child; `throws` records whether invoking it
raises (the engine swallows such exceptions). -/
structure Cancellor where
  throws : Bool
deriving DecidableEq, Repr

/-- What a child does synchronously when the engine calls it: either it
returns (possibly with a cancellor), or it throws a value. -/
inductive LaunchBehavior (ρ : Type) where
  | ret (cancellor : Option Cancellor)
  | thr (e : ρ)

/-- A requestor value as seen by the factories and the engine: its JS shape
(`typeof === "function"`, its `.length` property when that is a number) and
its synchronous behaviour when launched with a message. -/
structure Child (α ρ : Type) where
  isFunction : Bool := true
  length : Option Int := some 2
  onLaunch : Option α → LaunchBehavior ρ

/-! ## Engine state and effects (run.js) -/

/-- Launch/completion status of one child's receiver closure.  `waiting`:
not yet launched (no closure exists). `running`: launched, its
`requestorIndex` closure variable still holds the index.  `done`: its
`requestorIndex` has been cleared (after the first accepted receiver call,
or after a synchronous throw). -/
inductive Gate where
  | waiting
  | running
  | done
deriving DecidableEq, Repr

/-- Observable actions of one engine step. -/
inductive Effect (α ρ : Type) where
  | launch (i : Nat) (msg : Option α)
  | action (i : Nat) (value : Option α) (reason : Option ρ)
  | cancelChild (i : Nat) (reason : RVal ρ)
  | recv (msg : RecvMsg α ρ)
deriving DecidableEq, Repr

/-- What a composite's `action` / `timeout` callback does when invoked:
the updated composite-local state, whether it called the engine's `cancel`
(and with which argument; `some none` is `cancel(undefined)`, which the
default parameter replaces with the default reason), and whether it invoked
the composite receiver (always after the `cancel` call in the source). -/
structure HandlerOut (α ρ π : Type) where
  pstate : π
  cancelWith : Option (Option (RVal ρ))
  recv : Option (RecvMsg α ρ)

/-- The operator-specific callbacks handed to `run`. -/
structure Policy (α ρ π : Type) where
  onAction : π → Option α → Option ρ → Nat → HandlerOut α ρ π
  onTimeout : π → HandlerOut α ρ π

/-- Static configuration of one `run` invocation. -/
structure Engine (α ρ π : Type) where
  children : List (Child α ρ)
  factoryName : String
  initialMessage : Option α
  policy : Policy α ρ π

/-- Mutable state of one `run` invocation plus the composite-local state.
`cancellors` is the cancellor array (`none` once `cancel` has run and set it
to `undefined`); `gates` tracks each child's receiver-closure guard;
`nextNumber` is the next index to launch; `queue` holds the pending
`startRequestor` tasks placed on the zero-delay task queue, each with the
message it was queued with. -/
@[ext]
structure EngState (α ρ π : Type) where
  cancellors : Option (Nat → Option Cancellor)
  gates : Nat → Gate
  nextNumber : Nat
  timerArmed : Bool
  queue : List (Option α)
  pstate : π

/-- The `cancel` closure returned by `run` (run.js lines 163-178): clear the
timer, then—if the cancellor array still exists—invoke every stored
cancellor in index order (exceptions swallowed) and destroy the array. -/
def engineCancel {α ρ π : Type} (E : Engine α ρ π) (arg : Option (RVal ρ))
    (s : EngState α ρ π) : EngState α ρ π × List (Effect α ρ) :=
  let reason := arg.getD (RVal.made
    (makeReason (some E.factoryName) (some "Cancel!") none))
  let s1 := { s with timerArmed := false }
  match s1.cancellors with
  | none => (s1, [])
  | some slots =>
      ({ s1 with cancellors := none },
       (List.range E.children.length).filterMap fun i =>
         (slots i).map fun _ => Effect.cancelChild i reason)

/-- Apply a `HandlerOut`: install the new composite-local state, perform the
`cancel` call if the handler made one, then the receiver invocation if the
handler made one (this is the order in every branch of the source). -/
def applyOut {α ρ π : Type} (E : Engine α ρ π) (out : HandlerOut α ρ π)
    (s : EngState α ρ π) : EngState α ρ π × List (Effect α ρ) :=
  let s1 := { s with pstate := out.pstate }
  let recvEffs : List (Effect α ρ) :=
    match out.recv with
    | none => []
    | some m => [Effect.recv m]
  match out.cancelWith with
  | none => (s1, recvEffs)
  | some arg =>
      let (s2, effs) := engineCancel E arg s1
      (s2, effs ++ recvEffs)

/-- `startRequestor(message)` (run.js lines 56-118), with a fuel argument
for the recursion in the `catch` branch (which synchronously tries the next
child after a child throws).  A no-op when the cancellor array is gone or
every child has been launched.  Fuel `children.length + 1` always
suffices. -/
def startRequestorFuel {α ρ π : Type} (E : Engine α ρ π) :
    Nat → Option α → EngState α ρ π → EngState α ρ π × List (Effect α ρ)
  | 0, _, s => (s, [])
  | Nat.succ fuel, msg, s =>
    match s.cancellors with
    | none => (s, [])
    | some slots =>
      if hn : s.nextNumber < E.children.length then
        let i := s.nextNumber
        match (E.children.get ⟨i, hn⟩).onLaunch msg with
        | .ret c =>
            ({ s with nextNumber := i + 1
                    , cancellors := some (Function.update slots i c)
                    , gates := Function.update s.gates i Gate.running },
             [Effect.launch i msg])
        | .thr e =>
            let out := E.policy.onAction s.pstate none (some e) i
            let s1 := { s with nextNumber := i + 1
                             , gates := Function.update s.gates i Gate.done }
            let (s2, effs) := applyOut E out s1
            let (s3, effs2) := startRequestorFuel E fuel msg s2
            (s3, Effect.launch i msg :: Effect.action i none (some e) ::
                   (effs ++ effs2))
      else (s, [])

/-- One queued `startRequestor` task executing. -/
def launchStep {α ρ π : Type} (E : Engine α ρ π) (msg : Option α)
    (s : EngState α ρ π) : EngState α ρ π × List (Effect α ρ) :=
  startRequestorFuel E (E.children.length + 1) msg s

/-- A child invoking its receiver with `{value, reason}` (run.js lines
67-98).  Gated unless the cancellor array still exists and this launch's
`requestorIndex` is still set; when accepted: clear this child's cancellor
slot, run the action, clear the gate, and—if unlaunched children remain—
queue one more `startRequestor` with either the produced value (sequence)
or the initial message (all other factories). -/
def completeStep {α ρ π : Type} (E : Engine α ρ π) (i : Nat)
    (value : Option α) (reason : Option ρ) (s : EngState α ρ π) :
    EngState α ρ π × List (Effect α ρ) :=
  match s.cancellors with
  | none => (s, [])
  | some slots =>
    if s.gates i = Gate.running then
      let s1 := { s with cancellors := some (Function.update slots i none)
                       , gates := Function.update s.gates i Gate.done }
      let out := E.policy.onAction s1.pstate value reason i
      let (s2, effs) := applyOut E out s1
      let s3 := if s2.nextNumber < E.children.length
                then { s2 with queue := s2.queue ++
                        [if E.factoryName == sequenceName
                         then value else E.initialMessage] }
                else s2
      (s3, Effect.action i value reason :: effs)
    else (s, [])

/-- The one-shot timer firing: runs the timeout callback once; never fires
again and never fires after `clearTimeout`. -/
def timerStep {α ρ π : Type} (E : Engine α ρ π) (s : EngState α ρ π) :
    EngState α ρ π × List (Effect α ρ) :=
  if s.timerArmed then
    let s1 := { s with timerArmed := false }
    applyOut E (E.policy.onTimeout s1.pstate) s1
  else (s, [])

/-- Events the environment can deliver to a running engine. -/
inductive Event (α ρ : Type) where
  | dispatch
  | complete (i : Nat) (value : Option α) (reason : Option ρ)
  | timer
  | cancel (arg : Option (RVal ρ))

/-- One engine step. -/
def stepE {α ρ π : Type} (E : Engine α ρ π) (s : EngState α ρ π) :
    Event α ρ → EngState α ρ π × List (Effect α ρ)
  | .dispatch =>
    match s.queue with
    | [] => (s, [])
    | m :: rest => launchStep E m { s with queue := rest }
  | .complete i v r => completeStep E i v r s
  | .timer => timerStep E s
  | .cancel arg => engineCancel E arg s

/-- Run a whole event trace, collecting effects. -/
def runTrace {α ρ π : Type} (E : Engine α ρ π) :
    EngState α ρ π → List (Event α ρ) → EngState α ρ π × List (Effect α ρ)
  | s, [] => (s, [])
  | s, e :: evs =>
      let (s1, f1) := stepE E s e
      let (s2, f2) := runTrace E s1 evs
      (s2, f1 ++ f2)

/-- The engine state right after `run` returns (run.js lines 143-150): a
fresh cancellor array, `Math.min(throttle || Infinity, length)` queued
`startRequestor` tasks carrying the initial message, and the timer armed
exactly when a positive time limit was configured. -/
def initState {α ρ π : Type} (E : Engine α ρ π) (timerArmed0 : Bool)
    (throttle : Nat) (p0 : π) : EngState α ρ π :=
  let len := E.children.length
  { cancellors := some fun _ => none
  , gates := fun _ => Gate.waiting
  , nextNumber := 0
  , timerArmed := timerArmed0
  , queue := List.replicate (min (if throttle = 0 then len else throttle) len)
      E.initialMessage
  , pstate := p0 }

/-! ## Effect observations -/

/-- Projection selecting receiver invocations. -/
def recvOf {α ρ : Type} : Effect α ρ → Option (RecvMsg α ρ)
  | .recv m => some m
  | _ => none

/-- Projection selecting child launches. -/
def launchOf {α ρ : Type} : Effect α ρ → Option (Nat × Option α)
  | .launch i m => some (i, m)
  | _ => none

/-- Projection selecting action invocations. -/
def actionOf {α ρ : Type} : Effect α ρ → Option (Nat × Option α × Option ρ)
  | .action i v r => some (i, v, r)
  | _ => none

/-- Projection selecting child-cancellor invocations. -/
def cancelOf {α ρ : Type} : Effect α ρ → Option (Nat × RVal ρ)
  | .cancelChild i r => some (i, r)
  | _ => none

/-- The receiver invocations in an effect trace. -/
def recvMsgs {α ρ : Type} (effs : List (Effect α ρ)) : List (RecvMsg α ρ) :=
  effs.filterMap recvOf

/-- How many times the composite receiver was invoked. -/
def recvCount {α ρ : Type} (effs : List (Effect α ρ)) : Nat :=
  (recvMsgs effs).length

/-- The child launches in an effect trace, with their messages. -/
def launchList {α ρ : Type} (effs : List (Effect α ρ)) :
    List (Nat × Option α) :=
  effs.filterMap launchOf

/-- The action invocations in an effect trace. -/
def actionList {α ρ : Type} (effs : List (Effect α ρ)) :
    List (Nat × Option α × Option ρ) :=
  effs.filterMap actionOf

/-- The child-cancellor invocations in an effect trace. -/
def cancelCalls {α ρ : Type} (effs : List (Effect α ρ)) :
    List (Nat × RVal ρ) :=
  effs.filterMap cancelOf

/-- The action invocations for one particular child index. -/
def actionCountFor {α ρ : Type} (i : Nat) (effs : List (Effect α ρ)) : Nat :=
  (actionList effs).countP fun t => t.1 == i

/-! ## The parallel operator's action and timeout (parallel.js) -/

/-- The closure state of one `parallelRequestor` invocation (parallel.js
lines 148-163): the pending counters, the sparse `results` array (with its
JS length), and the current `timeOption`, which the timeout callback can
mutate (`REQUIRE_NECESSITIES` downgrades to
`SKIP_OPTIONALS_IF_TIME_REMAINS`).  `timeOption` is an `Option` because the
factory's normalisation can set it to the nonexistent object key
`TimeOption.IGNORE_OPTIONALS_IF_TIME_REMAINS`, i.e. `undefined`. -/
@[ext]
structure ParState (α ρ : Type) where
  numberPending : Int
  numberPendingNecessities : Int
  results : Nat → Option (ChildResult α ρ)
  resultsLen : Nat
  timeOption : Option String

/-- `results[requestorIndex] = { value, reason }` on a JS array: store at
the index and extend the array's length if the index is past the end. -/
def storeResult {α ρ : Type} (p : ParState α ρ) (i : Nat)
    (cr : ChildResult α ρ) : ParState α ρ :=
  { p with results := Function.update p.results i (some cr)
         , resultsLen := max p.resultsLen (i + 1) }

/-- `results.pop()` on a sparse JS array whose length is `resultsLen`: the
element at index `length - 1`. -/
def popResult {α ρ : Type} (p : ParState α ρ) : Option (ChildResult α ρ) :=
  p.results (p.resultsLen - 1)

/-- Materialise the `results` array as the engine would hand it to the
receiver: one entry per index below its JS length, `none` for holes. -/
def materialize {α ρ : Type} (p : ParState α ρ) :
    List (Option (ChildResult α ρ)) :=
  (List.range p.resultsLen).map p.results

/-- The receiver message for the sequence finish, `receiver(results.pop())`
(parallel.js line 212): the popped child result record is itself the
`{value, reason}` record handed to the receiver. -/
def seqPopMsg {α ρ : Type} (p : ParState α ρ) : RecvMsg α ρ :=
  match popResult p with
  | some cr => { value := cr.value.map RecvValue.item
               , reason := cr.reason.map RVal.child }
  | none => { value := none, reason := none }

/-- The completion check at the end of parallel's action (parallel.js lines
199-216): finish when nothing is pending, or when all necessities are done
under `SKIP_OPTIONALS_IF_TIME_REMAINS`; on finish, cancel the engine (with
the made "All necessities are complete..." reason) and invoke the receiver
with `results.pop()` for sequence or `{value: results, reason}`
otherwise. -/
def parallelFinishCheck {α ρ : Type} (fname : String)
    (p : ParState α ρ) (reason : Option ρ) : HandlerOut α ρ (ParState α ρ) :=
  if p.numberPending < 1 ∨
     (p.timeOption = some skipOptionals ∧ p.numberPendingNecessities < 1) then
    { pstate := p
    , cancelWith := some (some (RVal.made (makeReason (some fname)
        (some ("All necessities are complete, optional requestors are " ++
               "being canceled")) none)))
    , recv := some (if fname == sequenceName
        then seqPopMsg p
        else { value := some (RecvValue.arr (materialize p))
             , reason := reason.map RVal.child }) }
  else { pstate := p, cancelWith := none, recv := none }

/-- Parallel's `action` callback (parallel.js lines 173-218). -/
def parallelOnAction {α ρ : Type} (numberOfNecessities : Nat) (fname : String)
    (p : ParState α ρ) (value : Option α) (reason : Option ρ) (i : Nat) :
    HandlerOut α ρ (ParState α ρ) :=
  let p1 := { storeResult p i { value := value, reason := reason } with
              numberPending := p.numberPending - 1 }
  if i < numberOfNecessities then
    let p2 := { p1 with
      numberPendingNecessities := p1.numberPendingNecessities - 1 }
    if value.isNone then
      { pstate := p2
      , cancelWith := some (reason.map RVal.child)
      , recv := some { value := none, reason := reason.map RVal.child } }
    else parallelFinishCheck fname p2 reason
  else parallelFinishCheck fname p1 reason

/-- Parallel's `timeout` callback (parallel.js lines 219-246).  Note there
is no branch for `SKIP_OPTIONALS_IF_TIME_REMAINS` (or for an undefined
`timeOption`): in those cases the callback builds its reason and returns
without cancelling anything or invoking the receiver. -/
def parallelOnTimeout {α ρ : Type} (fname : String) (timeLimit : ℚ)
    (p : ParState α ρ) : HandlerOut α ρ (ParState α ρ) :=
  let reason : RVal ρ := RVal.made (makeReason (some fname)
    (some "Time limit reached!") (some (Evidence.time timeLimit)))
  if p.timeOption = some requireNecessities then
    let p1 := { p with timeOption := some skipOptionals }
    if p1.numberPendingNecessities < 1 then
      { pstate := p1
      , cancelWith := some (some reason)
      , recv := some { value := some (RecvValue.arr (materialize p1))
                     , reason := some reason } }
    else { pstate := p1, cancelWith := none, recv := none }
  else if p.timeOption = some tryOptionals then
    if p.numberPendingNecessities < 1 then
      { pstate := p
      , cancelWith := some (some reason)
      , recv := some { value := some (RecvValue.arr (materialize p))
                     , reason := none } }
    else
      { pstate := p
      , cancelWith := some (some reason)
      , recv := some { value := none, reason := some reason } }
  else { pstate := p, cancelWith := none, recv := none }

/-- The parallel policy with its configuration. -/
def parallelPolicy (α ρ : Type) (numberOfNecessities : Nat) (fname : String)
    (timeLimit : ℚ) : Policy α ρ (ParState α ρ) :=
  { onAction := parallelOnAction numberOfNecessities fname
  , onTimeout := parallelOnTimeout fname timeLimit }

/-- The initial `parallelRequestor` closure state (parallel.js lines
151-154): `numberPending = requestors.length`,
`numberPendingNecessities = numberOfNecessities`, `results = []`. -/
def parInit (α ρ : Type) (len numberOfNecessities : Nat)
    (timeOption : Option String) : ParState α ρ :=
  { numberPending := (len : Int)
  , numberPendingNecessities := (numberOfNecessities : Int)
  , results := fun _ => none
  , resultsLen := 0
  , timeOption := timeOption }

/-- The engine configuration `parallelRequestor` passes to `run`. -/
def mkParallelEngine {α ρ : Type} (children : List (Child α ρ))
    (fname : String) (numberOfNecessities : Nat) (timeLimit : ℚ)
    (initialMessage : Option α) : Engine α ρ (ParState α ρ) :=
  { children := children
  , factoryName := fname
  , initialMessage := initialMessage
  , policy := parallelPolicy α ρ numberOfNecessities fname timeLimit }

/-! ## The race operator's action and timeout (race.js) -/

/-- The closure state of one `raceRequestor` invocation. -/
structure RaceState where
  numberPending : Int

/-- Race's `action` callback (race.js lines 303-322): on a present value,
cancel the losers with the reason `makeReason` builds from the "Cancelling
loser!" excuse and the winner's index as evidence—of which only the
evidence survives into the returned object—and hand `{value, reason}` to
the receiver; on an absent value with nothing left pending, cancel with the
last reason and fail. -/
def raceOnAction {α ρ : Type} (fname : String) (p : RaceState)
    (value : Option α) (reason : Option ρ) (i : Nat) :
    HandlerOut α ρ RaceState :=
  let p1 : RaceState := { numberPending := p.numberPending - 1 }
  if value.isSome then
    { pstate := p1
    , cancelWith := some (some (RVal.made (makeReason (some fname)
        (some "Cancelling loser!") (some (Evidence.idx i)))))
    , recv := some { value := value.map RecvValue.item
                   , reason := reason.map RVal.child } }
  else if p1.numberPending < 1 then
    { pstate := p1
    , cancelWith := some (reason.map RVal.child)
    , recv := some { value := none, reason := reason.map RVal.child } }
  else { pstate := p1, cancelWith := none, recv := none }

/-- Race's `timeout` callback (race.js lines 323-332). -/
def raceOnTimeout {α ρ : Type} (fname : String) (timeLimit : ℚ)
    (p : RaceState) : HandlerOut α ρ RaceState :=
  let reason : RVal ρ := RVal.made (makeReason (some fname)
    (some "Timeout occured!") (some (Evidence.time timeLimit)))
  { pstate := p
  , cancelWith := some (some reason)
  , recv := some { value := none, reason := some reason } }

/-- The race policy with its configuration. -/
def racePolicy (α ρ : Type) (fname : String) (timeLimit : ℚ) :
    Policy α ρ RaceState :=
  { onAction := raceOnAction fname
  , onTimeout := raceOnTimeout fname timeLimit }

/-- The engine configuration `raceRequestor` passes to `run`. -/
def mkRaceEngine {α ρ : Type} (children : List (Child α ρ)) (fname : String)
    (timeLimit : ℚ) (initialMessage : Option α) : Engine α ρ RaceState :=
  { children := children
  , factoryName := fname
  , initialMessage := initialMessage
  , policy := racePolicy α ρ fname timeLimit }

/-! ## utils.js: checkRequestors -/

/-- JS `x < n` when `x` may be `undefined`: `undefined < n` is `false`. -/
def jsLtNum (l : Option Int) (n : Int) : Bool :=
  match l with
  | none => false
  | some v => v < n

/-- JS `x > n` when `x` may be `undefined`: `undefined > n` is `false`. -/
def jsGtNum (l : Option Int) (n : Int) : Bool :=
  match l with
  | none => false
  | some v => n < v

/-- `checkRequestors(requestors, factoryName)` (utils.js lines 87-96).  The
source condition is
`requestors.some(r => isFunction(r) || r.length < 1 || r.length > 2)`,
and the throw passes `factory_name` (a key `makeReason` does not even
read—not that any factory name would survive into the returned reason). -/
def checkRequestors {α ρ : Type} (requestors : List (Child α ρ)) :
    Except MadeReason Unit :=
  if requestors.any fun r =>
       r.isFunction || jsLtNum r.length 1 || jsGtNum r.length 2 then
    Except.error (makeReason none
      (some "Requestors must be functions of 1 or 2 arguments!")
      (some Evidence.arrArg))
  else Except.ok ()

/-! ## The parallel factory's normalisation (parallel.js lines 76-138) -/

/-- Synchronous configuration failures a factory can raise. -/
inductive ConfigErr where
  | refError (name : String)
  | reasonErr (r : MadeReason)
deriving DecidableEq, Repr

/-- The normalisation block of `parallel` (parallel.js lines 97-136):
returns the combined requestor list, the number of necessities, and the
effective `timeOption`.  With necessities and no optionals the source
assigns `TimeOption.IGNORE_OPTIONALS_IF_TIME_REMAINS`, which is not a key
of the frozen `TimeOption` object, i.e. `undefined` (`none`); with both
lists non-empty it evaluates `allTimeOption.some(...)`, and `allTimeOption`
is defined nowhere (the constants module exports `allTimeOptions`), so the
branch throws a `ReferenceError` before any comparison happens. -/
def parallelNormalize {α ρ : Type} (necessities optionals : List (Child α ρ))
    (timeOptionIn : Option String) :
    Except ConfigErr (List (Child α ρ) × Nat × Option String) :=
  let timeOption := some (timeOptionIn.getD skipOptionals)
  if necessities.length = 0 then
    if optionals.length = 0 then
      Except.ok ([], 0, timeOption)
    else
      Except.ok (optionals, 0, some tryOptionals)
  else
    if optionals.length = 0 then
      Except.ok (necessities, necessities.length, none)
    else
      Except.error (ConfigErr.refError "allTimeOption")

/-! ## Composite entry (parallel.js lines 148-252) -/

/-- What invoking a composite requestor does synchronously: with an empty
requestor list the receiver is invoked immediately, exactly once, with no
children launched and no cancellor returned; otherwise the engine starts
with its initial state. -/
inductive CompositeStart (α ρ π : Type) where
  | immediate (msg : RecvMsg α ρ)
  | engine (s0 : EngState α ρ π)

/-- `parallelRequestor(receiver, initialMessage)` (parallel.js lines
148-252), given an already-normalised configuration and a validated
throttle/time limit: the empty-list branch answers immediately with the
initial message (sequence) or the empty results array (otherwise); the
non-empty branch delegates to `run`. -/
def parallelRequestorStart {α ρ : Type} (requestors : List (Child α ρ))
    (numberOfNecessities : Nat) (fname : String) (timeOption : Option String)
    (timeLimit : ℚ) (timerArmed : Bool) (throttle : Nat)
    (initialMessage : Option α) : CompositeStart α ρ (ParState α ρ) :=
  if requestors.length = 0 then
    CompositeStart.immediate
      (if fname == sequenceName
       then { value := initialMessage.map RecvValue.item, reason := none }
       else { value := some (RecvValue.arr []), reason := none })
  else
    CompositeStart.engine
      (initState (mkParallelEngine requestors fname numberOfNecessities
          timeLimit initialMessage) timerArmed throttle
        (parInit α ρ requestors.length numberOfNecessities timeOption))

/-- The whole `parallel` factory pipeline on well-typed inputs
(parallel.js lines 76-138): normalise, then shape-check the combined list;
on success the composite is characterised by the data
`parallelRequestorStart` consumes. -/
def parallelFactory {α ρ : Type} (necessities optionals : List (Child α ρ))
    (timeOptionIn : Option String) :
    Except ConfigErr (List (Child α ρ) × Nat × Option String) :=
  match parallelNormalize necessities optionals timeOptionIn with
  | Except.error e => Except.error e
  | Except.ok (requestors, n, t) =>
    match checkRequestors requestors with
    | Except.error r => Except.error (ConfigErr.reasonErr r)
    | Except.ok _ => Except.ok (requestors, n, t)

/-- The `sequence` factory (sequence.js lines 41-50): `parallel(requestors,
{timeOption: SKIP_OPTIONALS_IF_TIME_REMAINS, throttle: 1, factoryName:
SEQUENCE})`. -/
def sequenceFactory {α ρ : Type} (requestors : List (Child α ρ)) :
    Except ConfigErr (List (Child α ρ) × Nat × Option String) :=
  parallelFactory requestors [] (some skipOptionals)

/-! ## run's configuration validation (run.js lines 120-141) -/

/-- A JS argument as the `run` validation inspects it: absent, a number, or
some other value. -/
inductive JsArg where
  | undef
  | num (q : ℚ)
  | other
deriving DecidableEq, Repr

/-- `Number.isSafeInteger` on a (finite) numeric value. -/
def isSafeInteger (q : ℚ) : Bool :=
  q.den = 1 && q.num.natAbs ≤ 9007199254740991

/-- The observable outcome of `run`'s synchronous prologue: whether the
one-shot timer was armed (and with which limit), and the configuration
reason thrown, if any.  When `thrown` is present, `run` never reaches its
`return cancel` statement, so the caller holds no way to disarm an armed
timer. -/
structure RunSetupResult where
  timerArmed : Option ℚ
  thrown : Option MadeReason
deriving DecidableEq, Repr

/-- The throttle type-check of `run` (run.js lines 134-141), performed
after the time-limit block; `throttle` defaults to `0` when absent. -/
def runThrottlePart (fname : String) (armed : Option ℚ) (throttle : JsArg) :
    RunSetupResult :=
  let throttleVal : Option ℚ :=
    match throttle with
    | JsArg.undef => some 0
    | JsArg.num q => some q
    | JsArg.other => none
  match throttleVal with
  | some q =>
    if isSafeInteger q && 0 ≤ q then
      { timerArmed := armed, thrown := none }
    else
      { timerArmed := armed
      , thrown := some (makeReason (some fname)
          (some "Throttle must be a nonnegative, safe integer!")
          (some (Evidence.numArg q))) }
  | none =>
    { timerArmed := armed
    , thrown := some (makeReason (some fname)
        (some "Throttle must be a nonnegative, safe integer!") none) }

/-- `run`'s synchronous prologue (run.js lines 120-141), in source order:
first the time-limit block—which throws on a non-numeric or negative limit
and otherwise arms the one-shot timer for a positive limit—then the
throttle type-check, which throws after the timer is already armed. -/
def runSetup (fname : String) (timeLimit : JsArg) (throttle : JsArg) :
    RunSetupResult :=
  match timeLimit with
  | JsArg.undef => runThrottlePart fname none throttle
  | JsArg.num q =>
    if q < 0 then
      { timerArmed := none
      , thrown := some (makeReason (some fname)
          (some "timeLimit must be a number greater than 0!")
          (some (Evidence.numArg q))) }
    else
      runThrottlePart fname (if 0 < q then some q else none) throttle
  | JsArg.other =>
    { timerArmed := none
    , thrown := some (makeReason (some fname)
        (some "timeLimit must be a number greater than 0!") none) }

/-! ## A driver for synchronous children -/

/-- Execute the engine with every child behaving synchronously: repeatedly
pop one queued `startRequestor` task and immediately deliver the launched
child's receiver invocation, whose `{value, reason}` is a pure function
`cv` of the child's index and the message it received.  This only composes
engine steps; it is the canonical schedule for a chain of synchronous pure
requestors such as `map`-wrapped functions. -/
def syncExec {α ρ π : Type} (E : Engine α ρ π)
    (cv : Nat → Option α → ChildResult α ρ) :
    Nat → EngState α ρ π → EngState α ρ π × List (Effect α ρ)
  | 0, s => (s, [])
  | Nat.succ fuel, s =>
    match s.queue with
    | [] => (s, [])
    | m :: _ =>
      let i := s.nextNumber
      let (s1, f1) := stepE E s Event.dispatch
      let (s2, f2) := stepE E s1 (Event.complete i (cv i m).value (cv i m).reason)
      let (s3, f3) := syncExec E cv fuel s2
      (s3, f1 ++ f2 ++ f3)

/-! ## Basic lemmas about effect observations -/

@[simp] theorem recvMsgs_nil {α ρ : Type} : recvMsgs ([] : List (Effect α ρ)) = [] := rfl

@[simp] theorem recvMsgs_append {α ρ : Type} (a b : List (Effect α ρ)) :
    recvMsgs (a ++ b) = recvMsgs a ++ recvMsgs b :=
  List.filterMap_append a b recvOf

@[simp] theorem recvCount_nil {α ρ : Type} : recvCount ([] : List (Effect α ρ)) = 0 := rfl

@[simp] theorem recvCount_append {α ρ : Type} (a b : List (Effect α ρ)) :
    recvCount (a ++ b) = recvCount a + recvCount b := by
  simp [recvCount]

@[simp] theorem recvMsgs_cons_launch {α ρ : Type} (i : Nat) (m : Option α)
    (l : List (Effect α ρ)) :
    recvMsgs (Effect.launch i m :: l) = recvMsgs l := by
  simp [recvMsgs, List.filterMap_cons, recvOf]

@[simp] theorem recvMsgs_cons_action {α ρ : Type} (i : Nat) (v : Option α)
    (r : Option ρ) (l : List (Effect α ρ)) :
    recvMsgs (Effect.action i v r :: l) = recvMsgs l := by
  simp [recvMsgs, List.filterMap_cons, recvOf]

@[simp] theorem recvMsgs_cons_cancelChild {α ρ : Type} (i : Nat) (r : RVal ρ)
    (l : List (Effect α ρ)) :
    recvMsgs (Effect.cancelChild i r :: l) = recvMsgs l := by
  simp [recvMsgs, List.filterMap_cons, recvOf]

@[simp] theorem recvMsgs_cons_recv {α ρ : Type} (m : RecvMsg α ρ)
    (l : List (Effect α ρ)) :
    recvMsgs (Effect.recv m :: l) = m :: recvMsgs l := by
  simp [recvMsgs, List.filterMap_cons, recvOf]

@[simp] theorem launchList_nil {α ρ : Type} :
    launchList ([] : List (Effect α ρ)) = [] := rfl

@[simp] theorem launchList_append {α ρ : Type} (a b : List (Effect α ρ)) :
    launchList (a ++ b) = launchList a ++ launchList b :=
  List.filterMap_append a b launchOf

@[simp] theorem actionList_nil {α ρ : Type} :
    actionList ([] : List (Effect α ρ)) = [] := rfl

@[simp] theorem actionList_append {α ρ : Type} (a b : List (Effect α ρ)) :
    actionList (a ++ b) = actionList a ++ actionList b :=
  List.filterMap_append a b actionOf

@[simp] theorem cancelCalls_nil {α ρ : Type} :
    cancelCalls ([] : List (Effect α ρ)) = [] := rfl

@[simp] theorem cancelCalls_append {α ρ : Type} (a b : List (Effect α ρ)) :
    cancelCalls (a ++ b) = cancelCalls a ++ cancelCalls b :=
  List.filterMap_append a b cancelOf

/-- The effect list produced by `engineCancel` holds only child-cancellor
invocations. -/
theorem engineCancel_effects_cancelChild {α ρ π : Type} (E : Engine α ρ π)
    (arg : Option (RVal ρ)) (s : EngState α ρ π) :
    ∀ e ∈ (engineCancel E arg s).2, ∃ i r, e = Effect.cancelChild i r := by
  intro e he
  unfold engineCancel at he
  rcases h : s.cancellors with _ | slots <;> simp [h] at he
  obtain ⟨a, -, -, hc⟩ := he
  exact ⟨_, _, hc.symm⟩

theorem recvMsgs_engineCancel {α ρ π : Type} (E : Engine α ρ π)
    (arg : Option (RVal ρ)) (s : EngState α ρ π) :
    recvMsgs (engineCancel E arg s).2 = [] := by
  rw [recvMsgs, List.filterMap_eq_nil]
  intro e he
  obtain ⟨i, r, rfl⟩ := engineCancel_effects_cancelChild E arg s e he
  rfl

theorem launchList_engineCancel {α ρ π : Type} (E : Engine α ρ π)
    (arg : Option (RVal ρ)) (s : EngState α ρ π) :
    launchList (engineCancel E arg s).2 = [] := by
  rw [launchList, List.filterMap_eq_nil]
  intro e he
  obtain ⟨i, r, rfl⟩ := engineCancel_effects_cancelChild E arg s e he
  rfl

theorem actionList_engineCancel {α ρ π : Type} (E : Engine α ρ π)
    (arg : Option (RVal ρ)) (s : EngState α ρ π) :
    actionList (engineCancel E arg s).2 = [] := by
  rw [actionList, List.filterMap_eq_nil]
  intro e he
  obtain ⟨i, r, rfl⟩ := engineCancel_effects_cancelChild E arg s e he
  rfl

/-! ## State lemmas about engineCancel and applyOut -/

theorem engineCancel_cancellors {α ρ π : Type} (E : Engine α ρ π)
    (arg : Option (RVal ρ)) (s : EngState α ρ π) :
    (engineCancel E arg s).1.cancellors = none := by
  unfold engineCancel
  rcases h : s.cancellors with _ | slots <;> simp [h]

theorem engineCancel_timer {α ρ π : Type} (E : Engine α ρ π)
    (arg : Option (RVal ρ)) (s : EngState α ρ π) :
    (engineCancel E arg s).1.timerArmed = false := by
  unfold engineCancel
  rcases h : s.cancellors with _ | slots <;> simp [h]

theorem engineCancel_pstate {α ρ π : Type} (E : Engine α ρ π)
    (arg : Option (RVal ρ)) (s : EngState α ρ π) :
    (engineCancel E arg s).1.pstate = s.pstate := by
  unfold engineCancel
  rcases h : s.cancellors with _ | slots <;> simp [h]

theorem engineCancel_gates {α ρ π : Type} (E : Engine α ρ π)
    (arg : Option (RVal ρ)) (s : EngState α ρ π) :
    (engineCancel E arg s).1.gates = s.gates := by
  unfold engineCancel
  rcases h : s.cancellors with _ | slots <;> simp [h]

theorem engineCancel_nextNumber {α ρ π : Type} (E : Engine α ρ π)
    (arg : Option (RVal ρ)) (s : EngState α ρ π) :
    (engineCancel E arg s).1.nextNumber = s.nextNumber := by
  unfold engineCancel
  rcases h : s.cancellors with _ | slots <;> simp [h]

theorem engineCancel_queue {α ρ π : Type} (E : Engine α ρ π)
    (arg : Option (RVal ρ)) (s : EngState α ρ π) :
    (engineCancel E arg s).1.queue = s.queue := by
  unfold engineCancel
  rcases h : s.cancellors with _ | slots <;> simp [h]

/-- `engineCancel` on a state whose cancellor array is already gone does
nothing but clear the (already clear) timer. -/
theorem engineCancel_dead {α ρ π : Type} (E : Engine α ρ π)
    (arg : Option (RVal ρ)) (s : EngState α ρ π)
    (h : s.cancellors = none) :
    engineCancel E arg s = ({ s with timerArmed := false }, []) := by
  unfold engineCancel
  simp [h]

theorem applyOut_recvCount {α ρ π : Type} (E : Engine α ρ π)
    (out : HandlerOut α ρ π) (s : EngState α ρ π) :
    recvCount (applyOut E out s).2 = if out.recv.isSome then 1 else 0 := by
  unfold applyOut
  rcases hc : out.cancelWith with _ | arg <;>
    rcases hr : out.recv with _ | m <;>
      simp [hc, hr, recvCount, recvMsgs_engineCancel]

theorem applyOut_recvMsgs {α ρ π : Type} (E : Engine α ρ π)
    (out : HandlerOut α ρ π) (s : EngState α ρ π) :
    recvMsgs (applyOut E out s).2 = out.recv.toList := by
  unfold applyOut
  rcases hc : out.cancelWith with _ | arg <;>
    rcases hr : out.recv with _ | m <;>
      simp [hc, hr, recvMsgs_engineCancel]

theorem applyOut_launchList {α ρ π : Type} (E : Engine α ρ π)
    (out : HandlerOut α ρ π) (s : EngState α ρ π) :
    launchList (applyOut E out s).2 = [] := by
  unfold applyOut
  rcases hc : out.cancelWith with _ | arg <;>
    rcases hr : out.recv with _ | m <;>
      simp [hc, hr, launchList, List.filterMap_cons, launchOf] <;>
        (intro a ha
         obtain ⟨i, r, rfl⟩ := engineCancel_effects_cancelChild _ _ _ a ha
         rfl)

theorem applyOut_actionList {α ρ π : Type} (E : Engine α ρ π)
    (out : HandlerOut α ρ π) (s : EngState α ρ π) :
    actionList (applyOut E out s).2 = [] := by
  unfold applyOut
  rcases hc : out.cancelWith with _ | arg <;>
    rcases hr : out.recv with _ | m <;>
      simp [hc, hr, actionList, List.filterMap_cons, actionOf] <;>
        (intro a ha
         obtain ⟨i, r, rfl⟩ := engineCancel_effects_cancelChild _ _ _ a ha
         rfl)

theorem applyOut_pstate {α ρ π : Type} (E : Engine α ρ π)
    (out : HandlerOut α ρ π) (s : EngState α ρ π) :
    (applyOut E out s).1.pstate = out.pstate := by
  unfold applyOut
  rcases hc : out.cancelWith with _ | arg
  · simp
  · simp [engineCancel_pstate]

theorem applyOut_gates {α ρ π : Type} (E : Engine α ρ π)
    (out : HandlerOut α ρ π) (s : EngState α ρ π) :
    (applyOut E out s).1.gates = s.gates := by
  unfold applyOut
  rcases hc : out.cancelWith with _ | arg
  · simp
  · simp [engineCancel_gates]

theorem applyOut_nextNumber {α ρ π : Type} (E : Engine α ρ π)
    (out : HandlerOut α ρ π) (s : EngState α ρ π) :
    (applyOut E out s).1.nextNumber = s.nextNumber := by
  unfold applyOut
  rcases hc : out.cancelWith with _ | arg
  · simp
  · simp [engineCancel_nextNumber]

theorem applyOut_queue {α ρ π : Type} (E : Engine α ρ π)
    (out : HandlerOut α ρ π) (s : EngState α ρ π) :
    (applyOut E out s).1.queue = s.queue := by
  unfold applyOut
  rcases hc : out.cancelWith with _ | arg
  · simp
  · simp [engineCancel_queue]

theorem applyOut_cancellors_of_cancel {α ρ π : Type} (E : Engine α ρ π)
    (out : HandlerOut α ρ π) (s : EngState α ρ π)
    (h : out.cancelWith.isSome) :
    (applyOut E out s).1.cancellors = none ∧
    (applyOut E out s).1.timerArmed = false := by
  unfold applyOut
  rcases hc : out.cancelWith with _ | arg
  · rw [hc] at h; simp at h
  · simp [engineCancel_cancellors, engineCancel_timer]

theorem applyOut_cancellors_of_noCancel {α ρ π : Type} (E : Engine α ρ π)
    (out : HandlerOut α ρ π) (s : EngState α ρ π)
    (h : out.cancelWith = none) :
    (applyOut E out s).1.cancellors = s.cancellors ∧
    (applyOut E out s).1.timerArmed = s.timerArmed := by
  unfold applyOut
  simp [h]

theorem applyOut_cancellors_none {α ρ π : Type} (E : Engine α ρ π)
    (out : HandlerOut α ρ π) (s : EngState α ρ π)
    (h : s.cancellors = none) :
    (applyOut E out s).1.cancellors = none := by
  unfold applyOut
  rcases hc : out.cancelWith with _ | arg
  · simp [h]
  · simp [engineCancel_cancellors]

/-! ## A cancelled engine is inert -/

/-- `startRequestor` is a no-op once the cancellor array is gone. -/
theorem startRequestorFuel_dead {α ρ π : Type} (E : Engine α ρ π)
    (fuel : Nat) (msg : Option α) (s : EngState α ρ π)
    (h : s.cancellors = none) :
    startRequestorFuel E fuel msg s = (s, []) := by
  cases fuel with
  | zero => rfl
  | succ fuel => simp [startRequestorFuel, h]

/-- After cancellation (cancellor array gone, timer disarmed), every later
event is a no-op: no launches, no action invocations, no receiver
invocations, no cancellor invocations; the state can only lose queued
tasks. -/
theorem stepE_dead {α ρ π : Type} (E : Engine α ρ π) (s : EngState α ρ π)
    (e : Event α ρ) (h1 : s.cancellors = none) (h2 : s.timerArmed = false) :
    ∃ s' : EngState α ρ π, stepE E s e = (s', []) ∧
      s'.cancellors = none ∧ s'.timerArmed = false := by
  cases e with
  | dispatch =>
      rcases hq : s.queue with _ | ⟨m, rest⟩
      · exact ⟨s, by simp [stepE, hq], h1, h2⟩
      · refine ⟨{ s with queue := rest }, ?_, by simpa using h1,
          by simpa using h2⟩
        simp only [stepE, hq, launchStep]
        exact startRequestorFuel_dead E _ m _ (by simpa using h1)
  | complete i v r => exact ⟨s, by simp [stepE, completeStep, h1], h1, h2⟩
  | timer => exact ⟨s, by simp [stepE, timerStep, h2], h1, h2⟩
  | cancel arg =>
      refine ⟨{ s with timerArmed := false }, ?_, by simpa using h1, by simp⟩
      simpa [stepE] using engineCancel_dead E arg s h1

/-- A whole trace from a cancelled-and-disarmed state produces no effects at
all. -/
theorem runTrace_dead {α ρ π : Type} (E : Engine α ρ π) :
    ∀ (evs : List (Event α ρ)) (s : EngState α ρ π),
    s.cancellors = none → s.timerArmed = false →
    (runTrace E s evs).1.cancellors = none ∧
    (runTrace E s evs).1.timerArmed = false ∧
    (runTrace E s evs).2 = [] := by
  intro evs
  induction evs with
  | nil => intro s h1 h2; exact ⟨h1, h2, rfl⟩
  | cons e evs ih =>
      intro s h1 h2
      obtain ⟨s', heq, d1, d2⟩ := stepE_dead E s e h1 h2
      have hr := ih s' d1 d2
      rcases hy : runTrace E s' evs with ⟨s2, f2⟩
      rw [hy] at hr
      simp only [runTrace, heq, hy]
      exact ⟨hr.1, hr.2.1, hr.2.2⟩

/-! ## At-most-once receiver invocation -/

/-- A policy whose handlers only invoke the composite receiver together
with an engine `cancel` call (which every branch of the parallel and race
action/timeout callbacks does). -/
def RecvCancels {α ρ π : Type} (P : Policy α ρ π) : Prop :=
  (∀ p v r i, ((P.onAction p v r i).recv).isSome →
      ((P.onAction p v r i).cancelWith).isSome) ∧
  (∀ p, ((P.onTimeout p).recv).isSome → ((P.onTimeout p).cancelWith).isSome)

/-- The at-most-once invariant: the receiver has been invoked at most once,
an invocation only happens on the way into the cancelled state, and a
cancelled engine has its timer disarmed. -/
def InvA {α ρ π : Type} (s : EngState α ρ π) (c : Nat) : Prop :=
  c ≤ 1 ∧ (c = 1 → s.cancellors = none) ∧
  (s.cancellors = none → s.timerArmed = false)

theorem invA_applyOut_alive {α ρ π : Type} (E : Engine α ρ π)
    (out : HandlerOut α ρ π) (s : EngState α ρ π)
    (halive : s.cancellors.isSome)
    (hp : out.recv.isSome → out.cancelWith.isSome) :
    InvA (applyOut E out s).1 (recvCount (applyOut E out s).2) := by
  rcases hr : out.recv with _ | m
  · rcases hc : out.cancelWith with _ | arg
    · obtain ⟨hcc, hct⟩ := applyOut_cancellors_of_noCancel E out s hc
      refine ⟨?_, ?_, ?_⟩
      · rw [applyOut_recvCount, hr]; simp
      · rw [applyOut_recvCount, hr]; simp
      · intro hdead
        rw [hcc] at hdead
        rw [hdead] at halive
        simp at halive
    · obtain ⟨hcc, hct⟩ := applyOut_cancellors_of_cancel E out s (by simp [hc])
      refine ⟨?_, ?_, fun _ => hct⟩
      · rw [applyOut_recvCount, hr]; simp
      · intro _; exact hcc
  · have hcs : out.cancelWith.isSome := hp (by simp [hr])
    obtain ⟨hcc, hct⟩ := applyOut_cancellors_of_cancel E out s hcs
    refine ⟨?_, fun _ => hcc, fun _ => hct⟩
    rw [applyOut_recvCount, hr]; simp

/-- `startRequestor` preserves the at-most-once invariant. -/
theorem invA_start {α ρ π : Type} (E : Engine α ρ π)
    (hp : RecvCancels E.policy) :
    ∀ (fuel : Nat) (msg : Option α) (s : EngState α ρ π) (c : Nat),
    InvA s c →
    InvA (startRequestorFuel E fuel msg s).1
      (c + recvCount (startRequestorFuel E fuel msg s).2) := by
  intro fuel
  induction fuel with
  | zero => intro msg s c h; simpa [startRequestorFuel] using h
  | succ fuel ih =>
      intro msg s c h
      rcases hc : s.cancellors with _ | slots
      · simpa [startRequestorFuel, hc] using h
      · by_cases hn : s.nextNumber < E.children.length
        · rcases hl : (E.children.get ⟨s.nextNumber, hn⟩).onLaunch msg
            with c0 | e0
          · simp only [startRequestorFuel, hc, hn, dif_pos, hl]
            obtain ⟨h1, h2, h3⟩ := h
            have hc0 : c = 0 := by
              rcases Nat.lt_or_ge c 1 with h' | h'
              · omega
              · exfalso
                have := h2 (by omega)
                rw [hc] at this; simp at this
            refine ⟨?_, ?_, ?_⟩
            · simp [hc0, recvCount]
            · intro hh
              exfalso
              simp [recvCount, hc0] at hh
            · intro hh
              simp at hh
          · -- the child threw: action runs, then the next child is tried
            have hcalive : c = 0 := by
              obtain ⟨h1, h2, h3⟩ := h
              rcases Nat.lt_or_ge c 1 with h' | h'
              · omega
              · exfalso
                have := h2 (by omega)
                rw [hc] at this; simp at this
            simp only [startRequestorFuel, hc, hn, dif_pos, hl]
            rcases hx : applyOut E
                (E.policy.onAction s.pstate none (some e0) s.nextNumber)
                { s with cancellors := some slots
                       , nextNumber := s.nextNumber + 1
                       , gates := Function.update s.gates s.nextNumber
                           Gate.done } with ⟨s2, effs⟩
            have hinv2 : InvA s2 (recvCount effs) := by
              have := invA_applyOut_alive E
                (E.policy.onAction s.pstate none (some e0) s.nextNumber)
                { s with cancellors := some slots
                       , nextNumber := s.nextNumber + 1
                       , gates := Function.update s.gates s.nextNumber
                           Gate.done }
                (by simp) (hp.1 _ _ _ _)
              rw [hx] at this
              exact this
            have := ih msg s2 (recvCount effs) hinv2
            rcases hy : startRequestorFuel E fuel msg s2 with ⟨s3, effs2⟩
            rw [hy] at this
            simp only [hx, hy]
            simpa [hcalive, recvCount, Nat.add_assoc] using this
        · simpa [startRequestorFuel, hc, hn] using h

/-- One engine step preserves the at-most-once invariant. -/
theorem invA_step {α ρ π : Type} (E : Engine α ρ π)
    (hp : RecvCancels E.policy) (s : EngState α ρ π) (c : Nat)
    (e : Event α ρ) (h : InvA s c) :
    InvA (stepE E s e).1 (c + recvCount (stepE E s e).2) := by
  cases e with
  | dispatch =>
      rcases hq : s.queue with _ | ⟨m, rest⟩
      · simpa [stepE, hq] using h
      · simp only [stepE, hq, launchStep]
        apply invA_start E hp
        exact ⟨h.1, h.2.1, h.2.2⟩
  | complete i v r =>
      rcases hc : s.cancellors with _ | slots
      · simpa [stepE, completeStep, hc] using h
      · by_cases hg : s.gates i = Gate.running
        · have hc0 : c = 0 := by
            obtain ⟨h1, h2, h3⟩ := h
            rcases Nat.lt_or_ge c 1 with h' | h'
            · omega
            · exfalso
              have := h2 (by omega)
              rw [hc] at this; simp at this
          simp only [stepE, completeStep, hc, hg, if_pos]
          rcases hx : applyOut E
              (E.policy.onAction s.pstate v r i)
              { s with cancellors := some (Function.update slots i none)
                     , gates := Function.update s.gates i Gate.done }
              with ⟨s2, effs⟩
          have hinv2 : InvA s2 (recvCount effs) := by
            have := invA_applyOut_alive E
              (E.policy.onAction s.pstate v r i)
              { s with cancellors := some (Function.update slots i none)
                     , gates := Function.update s.gates i Gate.done }
              (by simp) (hp.1 _ _ _ _)
            rw [hx] at this
            exact this
          obtain ⟨g1, g2, g3⟩ := hinv2
          have hcount : recvCount (Effect.action i v r :: effs) =
              recvCount effs := by simp [recvCount]
          by_cases hnn : s2.nextNumber < E.children.length
          · simp only [hnn, if_pos, hcount, hc0, Nat.zero_add]
            exact ⟨g1, fun hh => g2 hh, fun hh => g3 hh⟩
          · simp only [hnn, if_neg, not_false_iff, hcount, hc0, Nat.zero_add]
            exact ⟨g1, g2, g3⟩
        · simpa [stepE, completeStep, hc, hg] using h
  | timer =>
      by_cases ht : s.timerArmed
      · have halive : s.cancellors.isSome := by
          rcases hcc : s.cancellors with _ | slots
          · have := h.2.2 hcc
            rw [ht] at this
            simp at this
          · simp
        have hc0 : c = 0 := by
          obtain ⟨h1, h2, h3⟩ := h
          rcases Nat.lt_or_ge c 1 with h' | h'
          · omega
          · exfalso
            have hd := h2 (by omega)
            rw [hd] at halive
            simp at halive
        simp only [stepE, timerStep, ht, if_pos]
        have hmain := invA_applyOut_alive E
          (E.policy.onTimeout ({ s with timerArmed := false } : EngState α ρ π).pstate)
          { s with timerArmed := false }
          (by simpa using halive) (hp.2 _)
        rw [hc0]
        simpa only [Nat.zero_add] using hmain
      · simpa [stepE, timerStep, ht] using h
  | cancel arg =>
      simp only [stepE]
      refine ⟨?_, ?_, ?_⟩
      · simpa [recvCount, recvMsgs_engineCancel] using h.1
      · intro _; exact engineCancel_cancellors E arg s
      · intro _; exact engineCancel_timer E arg s

/-- A whole trace preserves the at-most-once invariant. -/
theorem invA_runTrace {α ρ π : Type} (E : Engine α ρ π)
    (hp : RecvCancels E.policy) :
    ∀ (evs : List (Event α ρ)) (s : EngState α ρ π) (c : Nat),
    InvA s c →
    InvA (runTrace E s evs).1 (c + recvCount (runTrace E s evs).2) := by
  intro evs
  induction evs with
  | nil => intro s c h; simpa [runTrace] using h
  | cons e evs ih =>
      intro s c h
      have h1 := invA_step E hp s c e h
      rcases hx : stepE E s e with ⟨s1, f1⟩
      rw [hx] at h1
      have h2 := ih s1 (c + recvCount f1) h1
      rcases hy : runTrace E s1 evs with ⟨s2, f2⟩
      rw [hy] at h2
      simp only [runTrace, hx, hy]
      simpa [Nat.add_assoc] using h2

/-- The initial engine state satisfies the at-most-once invariant with no
receiver invocations yet. -/
theorem invA_init {α ρ π : Type} (E : Engine α ρ π) (armed : Bool)
    (throttle : Nat) (p0 : π) : InvA (initState E armed throttle p0) 0 := by
  refine ⟨by omega, by omega, ?_⟩
  intro h
  simp [initState] at h

/-- At-most-once, engine level: over any event trace whatsoever—duplicate
completions from ill-behaved children, timer firings, caller
cancellations—a `RecvCancels` policy invokes the composite receiver at most
once. -/
theorem atMostOnce {α ρ π : Type} (E : Engine α ρ π)
    (hp : RecvCancels E.policy) (armed : Bool) (throttle : Nat) (p0 : π)
    (evs : List (Event α ρ)) :
    recvCount (runTrace E (initState E armed throttle p0) evs).2 ≤ 1 := by
  have := invA_runTrace E hp evs (initState E armed throttle p0) 0
    (invA_init E armed throttle p0)
  simpa using this.1

/-! ## Counting completed children -/

/-- The number of children whose action has run (gate `done`). -/
def doneCount (len : Nat) (g : Nat → Gate) : Nat :=
  (List.range len).countP fun j => g j == Gate.done

theorem doneCount_succ (len : Nat) (g : Nat → Gate) :
    doneCount (len + 1) g =
      doneCount len g + (if g len = Gate.done then 1 else 0) := by
  simp only [doneCount, List.range_succ, List.countP_append,
    List.countP_cons, List.countP_nil]
  by_cases h : g len = Gate.done <;> simp [h]

theorem doneCount_zero (g : Nat → Gate) : doneCount 0 g = 0 := rfl

theorem doneCount_update_keep {g : Nat → Gate} {i : Nat} {v : Gate}
    (hgi : g i ≠ Gate.done) (hv : v ≠ Gate.done) :
    ∀ len, doneCount len (Function.update g i v) = doneCount len g := by
  intro len
  induction len with
  | zero => rfl
  | succ len ih =>
      rw [doneCount_succ, doneCount_succ, ih]
      by_cases hi : len = i
      · subst hi
        simp [Function.update_same, hv, hgi]
      · simp [Function.update_noteq hi]

theorem doneCount_update_ge {g : Nat → Gate} {i : Nat} {v : Gate} :
    ∀ len, len ≤ i →
      doneCount len (Function.update g i v) = doneCount len g := by
  intro len
  induction len with
  | zero => intro _; rfl
  | succ len ih =>
      intro h
      rw [doneCount_succ, doneCount_succ, ih (by omega),
          Function.update_noteq (by omega)]

theorem doneCount_update_done {g : Nat → Gate} {i : Nat}
    (hgi : g i ≠ Gate.done) :
    ∀ len, i < len →
      doneCount len (Function.update g i Gate.done) = doneCount len g + 1 := by
  intro len
  induction len with
  | zero => omega
  | succ len ih =>
      intro hlt
      rw [doneCount_succ, doneCount_succ]
      by_cases hi : i = len
      · subst hi
        rw [doneCount_update_ge _ (le_refl i)]
        simp [Function.update_same, hgi]
      · have : i < len := by omega
        rw [ih this, Function.update_noteq (by omega)]
        by_cases h : g len = Gate.done <;> simp [h]

theorem doneCount_all {g : Nat → Gate} {len : Nat}
    (h : ∀ j, j < len → g j = Gate.done) : doneCount len g = len := by
  have : doneCount len g = (List.range len).length := by
    rw [doneCount, List.countP_eq_length]
    intro a ha
    rw [List.mem_range] at ha
    simp [h a ha]
  simpa using this

theorem doneCount_waiting {len : Nat} :
    doneCount len (fun _ => Gate.waiting) = 0 := by
  rw [doneCount, List.countP_eq_zero]
  intro a _
  simp

/-! ## Well-behaved policies and the exactly-once invariant -/

/-- The structural facts about the parallel and race action/timeout
callbacks that drive the exactly-once argument: every action invocation
decrements the composite's pending counter by one; an engine `cancel` call
and a receiver invocation happen together or not at all; the action always
finishes the composite when the counter reaches zero; the timeout callback
leaves the counter alone. -/
structure PolicyOK {α ρ π : Type} (P : Policy α ρ π) (pendingOf : π → Int) :
    Prop where
  act_pending : ∀ p v r i,
    pendingOf (P.onAction p v r i).pstate = pendingOf p - 1
  act_pair : ∀ p v r i,
    ((P.onAction p v r i).cancelWith).isSome = ((P.onAction p v r i).recv).isSome
  act_low : ∀ p v r i, pendingOf p - 1 < 1 →
    ((P.onAction p v r i).cancelWith).isSome
  tmo_pending : ∀ p, pendingOf (P.onTimeout p).pstate = pendingOf p
  tmo_pair : ∀ p,
    ((P.onTimeout p).cancelWith).isSome = ((P.onTimeout p).recv).isSome

theorem PolicyOK.recvCancels {α ρ π : Type} {P : Policy α ρ π}
    {pendingOf : π → Int} (h : PolicyOK P pendingOf) : RecvCancels P := by
  constructor
  · intro p v r i hr
    rw [h.act_pair]
    exact hr
  · intro p hr
    rw [h.tmo_pair]
    exact hr

/-- The exactly-once invariant for traces without caller cancellation:
additionally to `InvA`, a cancelled engine means the receiver has fired,
the pending counter counts the children whose action has not yet run, a
live composite still has work pending, children at or past `nextNumber`
are unlaunched, and children before it are launched. -/
def InvB {α ρ π : Type} (E : Engine α ρ π) (pendingOf : π → Int)
    (s : EngState α ρ π) (c : Nat) : Prop :=
  InvA s c ∧
  (s.cancellors = none → c = 1) ∧
  pendingOf s.pstate =
    (E.children.length : Int) - (doneCount E.children.length s.gates : Int) ∧
  (s.cancellors ≠ none → 1 ≤ pendingOf s.pstate) ∧
  (∀ j, s.nextNumber ≤ j → s.gates j = Gate.waiting) ∧
  (∀ j, j < s.nextNumber → s.gates j ≠ Gate.waiting) ∧
  s.nextNumber ≤ E.children.length

/-- Applying a handler (action or timeout) from a live engine state whose
bookkeeping matches the handler's output preserves the exactly-once
invariant, counting the handler's own receiver invocation. -/
theorem invB_handler {α ρ π : Type} (E : Engine α ρ π)
    (pendingOf : π → Int) (out : HandlerOut α ρ π) (s1 : EngState α ρ π)
    (slots : Nat → Option Cancellor)
    (hc : s1.cancellors = some slots)
    (hpair : (out.cancelWith).isSome = (out.recv).isSome)
    (hpend : pendingOf out.pstate =
      (E.children.length : Int) - (doneCount E.children.length s1.gates : Int))
    (hAlive : (out.cancelWith).isSome = false → 1 ≤ pendingOf out.pstate)
    (hg5 : ∀ j, s1.nextNumber ≤ j → s1.gates j = Gate.waiting)
    (hg6 : ∀ j, j < s1.nextNumber → s1.gates j ≠ Gate.waiting)
    (hn7 : s1.nextNumber ≤ E.children.length) :
    InvB E pendingOf (applyOut E out s1).1
      (recvCount (applyOut E out s1).2) := by
  have hgates := applyOut_gates E out s1
  have hnext := applyOut_nextNumber E out s1
  have hpst := applyOut_pstate E out s1
  have hcnt := applyOut_recvCount E out s1
  rcases hcw : (out.cancelWith).isSome with _ | _
  · -- no cancel call: the engine stays live and the receiver was not invoked
    have hrv : out.recv.isSome = false := by rw [← hpair, hcw]
    have hcwn : out.cancelWith = none := by
      rcases h : out.cancelWith with _ | a
      · rfl
      · rw [h] at hcw; simp at hcw
    obtain ⟨hcc, hct⟩ := applyOut_cancellors_of_noCancel E out s1 hcwn
    have hcount0 : recvCount (applyOut E out s1).2 = 0 := by
      rw [hcnt, hrv]; rfl
    rw [hcount0]
    refine ⟨⟨by omega, by omega, ?_⟩, ?_, ?_, ?_, ?_, ?_, ?_⟩
    · intro hd
      rw [hcc, hc] at hd
      simp at hd
    · intro hd
      rw [hcc, hc] at hd
      simp at hd
    · rw [hpst, hgates]; exact hpend
    · intro _
      rw [hpst]
      exact hAlive hcw
    · intro j hj
      rw [hgates]
      exact hg5 j (by rw [hnext] at hj; exact hj)
    · intro j hj
      rw [hgates]
      exact hg6 j (by rw [hnext] at hj; exact hj)
    · rw [hnext]; exact hn7
  · -- cancel call: the engine dies and the receiver fires exactly once
    have hrv : out.recv.isSome = true := by rw [← hpair, hcw]
    obtain ⟨hcc, hct⟩ := applyOut_cancellors_of_cancel E out s1 hcw
    have hcount1 : recvCount (applyOut E out s1).2 = 1 := by
      rw [hcnt, hrv]; rfl
    rw [hcount1]
    refine ⟨⟨by omega, fun _ => hcc, fun _ => hct⟩, fun _ => rfl, ?_, ?_,
      ?_, ?_, ?_⟩
    · rw [hpst, hgates]; exact hpend
    · intro hl
      rw [hcc] at hl
      simp at hl
    · intro j hj
      rw [hgates]
      exact hg5 j (by rw [hnext] at hj; exact hj)
    · intro j hj
      rw [hgates]
      exact hg6 j (by rw [hnext] at hj; exact hj)
    · rw [hnext]; exact hn7

/-- A live engine state with receiver count `c` satisfying `InvA` has
`c = 0`. -/
theorem invA_alive_zero {α ρ π : Type} {s : EngState α ρ π} {c : Nat}
    (h : InvA s c) (halive : s.cancellors.isSome) : c = 0 := by
  obtain ⟨h1, h2, -⟩ := h
  rcases Nat.lt_or_ge c 1 with h' | h'
  · omega
  · exfalso
    rw [h2 (by omega)] at halive
    simp at halive

/-- `startRequestor` preserves the exactly-once invariant. -/
theorem invB_start {α ρ π : Type} (E : Engine α ρ π) (pendingOf : π → Int)
    (hP : PolicyOK E.policy pendingOf) :
    ∀ (fuel : Nat) (msg : Option α) (s : EngState α ρ π) (c : Nat),
    InvB E pendingOf s c →
    InvB E pendingOf (startRequestorFuel E fuel msg s).1
      (c + recvCount (startRequestorFuel E fuel msg s).2) := by
  intro fuel
  induction fuel with
  | zero => intro msg s c h; simpa [startRequestorFuel] using h
  | succ fuel ih =>
      intro msg s c h
      obtain ⟨hA, hDC, hPend, hLow, hg5, hg6, hn7⟩ := id h
      rcases hc : s.cancellors with _ | slots
      · rw [startRequestorFuel_dead E _ msg s hc]
        simpa using h
      · have hc0 : c = 0 := invA_alive_zero hA (by rw [hc]; rfl)
        by_cases hn : s.nextNumber < E.children.length
        · have hwait : s.gates s.nextNumber = Gate.waiting :=
            hg5 _ (le_refl _)
          rcases hl : (E.children.get ⟨s.nextNumber, hn⟩).onLaunch msg
            with c0 | e0
          · -- a normal launch: record the cancellor, open the gate
            simp only [startRequestorFuel, hc, hn, dif_pos, hl]
            refine ⟨⟨?_, ?_, ?_⟩, ?_, ?_, ?_, ?_, ?_, ?_⟩
            · simp [hc0, recvCount]
            · intro hh; exfalso; simp [recvCount, hc0] at hh
            · intro hh; simp at hh
            · intro hh; simp at hh
            · dsimp only
              rw [doneCount_update_keep (by rw [hwait]; simp) (by simp)]
              exact hPend
            · intro _
              dsimp only
              simpa using hLow (by rw [hc]; simp)
            · intro j hj
              dsimp only at hj ⊢
              rw [Function.update_noteq (by omega)]
              exact hg5 j (by omega)
            · intro j hj
              dsimp only at hj ⊢
              by_cases hji : j = s.nextNumber
              · subst hji
                rw [Function.update_same]
                simp
              · rw [Function.update_noteq hji]
                exact hg6 j (by omega)
            · dsimp only
              omega
          · -- the child threw: its action runs, then the next child is tried
            simp only [startRequestorFuel, hc, hn, dif_pos, hl]
            rcases hx : applyOut E
                (E.policy.onAction s.pstate none (some e0) s.nextNumber)
                { s with cancellors := some slots
                       , nextNumber := s.nextNumber + 1
                       , gates := Function.update s.gates s.nextNumber
                           Gate.done } with ⟨s2, effs⟩
            have hinv2 : InvB E pendingOf s2 (recvCount effs) := by
              have := invB_handler E pendingOf
                (E.policy.onAction s.pstate none (some e0) s.nextNumber)
                { s with cancellors := some slots
                       , nextNumber := s.nextNumber + 1
                       , gates := Function.update s.gates s.nextNumber
                           Gate.done }
                slots rfl (hP.act_pair _ _ _ _) ?_ ?_ ?_ ?_ ?_
              · rw [hx] at this; exact this
              · rw [hP.act_pending]
                dsimp only
                rw [doneCount_update_done (by rw [hwait]; simp) _ hn]
                push_cast
                omega
              · intro hcw
                rw [hP.act_pending]
                by_contra hcon
                have := hP.act_low s.pstate none (some e0) s.nextNumber
                  (by omega)
                rw [this] at hcw
                simp at hcw
              · intro j hj
                dsimp only at hj ⊢
                rw [Function.update_noteq (by omega)]
                exact hg5 j (by omega)
              · intro j hj
                dsimp only at hj ⊢
                by_cases hji : j = s.nextNumber
                · subst hji
                  rw [Function.update_same]
                  simp
                · rw [Function.update_noteq hji]
                  exact hg6 j (by omega)
              · dsimp only
                omega
            have := ih msg s2 (recvCount effs) hinv2
            rcases hy : startRequestorFuel E fuel msg s2 with ⟨s3, effs2⟩
            rw [hy] at this
            simp only [hx, hy]
            simpa [hc0, recvCount, Nat.add_assoc] using this
        · simp only [startRequestorFuel, hc, hn, dif_neg, not_false_iff]
          simpa using h

/-- Whether an event is a caller cancellation. -/
def Event.isCancel {α ρ : Type} : Event α ρ → Bool
  | .cancel _ => true
  | _ => false

/-- Every non-cancel engine step preserves the exactly-once invariant. -/
theorem invB_step {α ρ π : Type} (E : Engine α ρ π) (pendingOf : π → Int)
    (hP : PolicyOK E.policy pendingOf) (s : EngState α ρ π) (c : Nat)
    (e : Event α ρ) (he : e.isCancel = false) (h : InvB E pendingOf s c) :
    InvB E pendingOf (stepE E s e).1 (c + recvCount (stepE E s e).2) := by
  cases e with
  | dispatch =>
      rcases hq : s.queue with _ | ⟨m, rest⟩
      · simp only [stepE, hq]
        simpa using h
      · simp only [stepE, hq, launchStep]
        apply invB_start E pendingOf hP
        obtain ⟨hA, hDC, hPend, hLow, hg5, hg6, hn7⟩ := id h
        exact ⟨hA, hDC, hPend, hLow, hg5, hg6, hn7⟩
  | complete i v r =>
      obtain ⟨hA, hDC, hPend, hLow, hg5, hg6, hn7⟩ := id h
      rcases hc : s.cancellors with _ | slots
      · simp only [stepE, completeStep, hc]
        simpa using h
      · by_cases hg : s.gates i = Gate.running
        · have hc0 : c = 0 := invA_alive_zero hA (by rw [hc]; rfl)
          have hi : i < s.nextNumber := by
            by_contra hcon
            have := hg5 i (by omega)
            rw [this] at hg
            exact absurd hg (by simp)
          simp only [stepE, completeStep, hc, hg, if_pos]
          rcases hx : applyOut E
              (E.policy.onAction s.pstate v r i)
              { s with cancellors := some (Function.update slots i none)
                     , gates := Function.update s.gates i Gate.done }
              with ⟨s2, effs⟩
          have hinv2 : InvB E pendingOf s2 (recvCount effs) := by
            have := invB_handler E pendingOf
              (E.policy.onAction s.pstate v r i)
              { s with cancellors := some (Function.update slots i none)
                     , gates := Function.update s.gates i Gate.done }
              (Function.update slots i none)
              rfl (hP.act_pair _ _ _ _) ?_ ?_ ?_ ?_ ?_
            · rw [hx] at this; exact this
            · rw [hP.act_pending]
              dsimp only
              rw [doneCount_update_done (by rw [hg]; simp) _ (by omega)]
              push_cast
              omega
            · intro hcw
              rw [hP.act_pending]
              by_contra hcon
              have := hP.act_low s.pstate v r i (by omega)
              rw [this] at hcw
              simp at hcw
            · intro j hj
              dsimp only at hj ⊢
              rw [Function.update_noteq (by omega)]
              exact hg5 j hj
            · intro j hj
              dsimp only at hj ⊢
              by_cases hji : j = i
              · subst hji
                rw [Function.update_same]
                simp
              · rw [Function.update_noteq hji]
                exact hg6 j hj
            · dsimp only
              omega
          obtain ⟨g1, g2, g3, g4, g5, g6, g7⟩ := hinv2
          have hcount : recvCount (Effect.action i v r :: effs) =
              recvCount effs := by simp [recvCount]
          by_cases hnn : s2.nextNumber < E.children.length
          · simp only [hnn, if_pos, hcount, hc0, Nat.zero_add]
            exact ⟨g1, g2, g3, g4, g5, g6, g7⟩
          · simp only [hnn, if_neg, not_false_iff, hcount, hc0, Nat.zero_add]
            exact ⟨g1, g2, g3, g4, g5, g6, g7⟩
        · simp only [stepE, completeStep, hc, hg, if_neg, not_false_iff]
          simpa using h
  | timer =>
      obtain ⟨hA, hDC, hPend, hLow, hg5, hg6, hn7⟩ := id h
      by_cases ht : s.timerArmed
      · have halive : s.cancellors.isSome := by
          rcases hcc : s.cancellors with _ | slots
          · have := hA.2.2 hcc
            rw [ht] at this
            simp at this
          · rfl
        rcases hcc : s.cancellors with _ | slots
        · rw [hcc] at halive; simp at halive
        have hc0 : c = 0 := invA_alive_zero hA halive
        simp only [stepE, timerStep, ht, if_pos]
        have hmain := invB_handler E pendingOf
          (E.policy.onTimeout s.pstate)
          { s with timerArmed := false } slots (by simpa using hcc)
          (hP.tmo_pair _) ?_ ?_ ?_ ?_ ?_
        · rw [hc0]
          simpa only [Nat.zero_add] using hmain
        · rw [hP.tmo_pending]
          simpa using hPend
        · intro _
          rw [hP.tmo_pending]
          simpa using hLow (by rw [hcc]; simp)
        · intro j hj
          simpa using hg5 j (by simpa using hj)
        · intro j hj
          simpa using hg6 j (by simpa using hj)
        · simpa using hn7
      · simp only [stepE, timerStep, ht, if_neg, Bool.false_eq_true,
          not_false_iff]
        simpa using h
  | cancel arg => simp [Event.isCancel] at he

/-- A trace without caller cancellations preserves the exactly-once
invariant. -/
theorem invB_runTrace {α ρ π : Type} (E : Engine α ρ π)
    (pendingOf : π → Int) (hP : PolicyOK E.policy pendingOf) :
    ∀ (evs : List (Event α ρ)) (s : EngState α ρ π) (c : Nat),
    (∀ e ∈ evs, e.isCancel = false) →
    InvB E pendingOf s c →
    InvB E pendingOf (runTrace E s evs).1
      (c + recvCount (runTrace E s evs).2) := by
  intro evs
  induction evs with
  | nil => intro s c _ h; simpa [runTrace] using h
  | cons e evs ih =>
      intro s c hnc h
      have h1 := invB_step E pendingOf hP s c e (hnc e (by simp)) h
      rcases hx : stepE E s e with ⟨s1, f1⟩
      rw [hx] at h1
      have h2 := ih s1 (c + recvCount f1)
        (fun e' he' => hnc e' (by simp [he'])) h1
      rcases hy : runTrace E s1 evs with ⟨s2, f2⟩
      rw [hy] at h2
      simp only [runTrace, hx, hy]
      simpa [Nat.add_assoc] using h2

/-- The initial engine state satisfies the exactly-once invariant, given at
least one child and a pending counter starting at the child count. -/
theorem invB_init {α ρ π : Type} (E : Engine α ρ π) (pendingOf : π → Int)
    (armed : Bool) (throttle : Nat) (p0 : π)
    (hlen : 1 ≤ E.children.length)
    (hp0 : pendingOf p0 = (E.children.length : Int)) :
    InvB E pendingOf (initState E armed throttle p0) 0 := by
  refine ⟨invA_init E armed throttle p0, ?_, ?_, ?_, ?_, ?_, ?_⟩
  · intro hh; simp [initState] at hh
  · simp [initState, hp0, doneCount_waiting]
  · intro _
    simp only [initState, hp0]
    omega
  · intro j _; rfl
  · intro j hj; simp [initState] at hj
  · simp [initState]

/-- A quiescent engine state: every child has been launched and none is
still in flight, i.e. every child's action has run. -/
def Quiescent {α ρ π : Type} (E : Engine α ρ π) (s : EngState α ρ π) :
    Prop :=
  E.children.length ≤ s.nextNumber ∧
  ∀ j, j < E.children.length → s.gates j ≠ Gate.running

/-- Exactly-once, engine level: over any trace without caller
cancellations, if the trace ends quiescent (normal termination: every
child's action has run, duplicate receiver calls having been dropped) or
with the engine cancelled by its own policy, the composite receiver was
invoked exactly once. -/
theorem exactlyOnceNormal {α ρ π : Type} (E : Engine α ρ π)
    (pendingOf : π → Int) (hP : PolicyOK E.policy pendingOf)
    (armed : Bool) (throttle : Nat) (p0 : π)
    (hlen : 1 ≤ E.children.length)
    (hp0 : pendingOf p0 = (E.children.length : Int))
    (evs : List (Event α ρ))
    (hnc : ∀ e ∈ evs, e.isCancel = false)
    (hend : Quiescent E (runTrace E (initState E armed throttle p0) evs).1 ∨
      (runTrace E (initState E armed throttle p0) evs).1.cancellors = none) :
    recvCount (runTrace E (initState E armed throttle p0) evs).2 = 1 := by
  have hinv := invB_runTrace E pendingOf hP evs
    (initState E armed throttle p0) 0 hnc
    (invB_init E pendingOf armed throttle p0 hlen hp0)
  obtain ⟨hA, hDC, hPend, hLow, hg5, hg6, hn7⟩ := hinv
  rcases hend with hq | hdead
  · rcases hcf : (runTrace E (initState E armed throttle p0) evs).1.cancellors
      with _ | slots
    · simpa using hDC hcf
    · exfalso
      have hall : ∀ j, j < E.children.length →
          (runTrace E (initState E armed throttle p0) evs).1.gates j =
            Gate.done := by
        intro j hj
        have hql := hq.1
        have hnw := hg6 j (by omega)
        have hnr := hq.2 j hj
        rcases hgj : (runTrace E (initState E armed throttle p0) evs).1.gates j
          with _ | _ | _
        · exact absurd hgj hnw
        · exact absurd hgj hnr
        · rfl
      rw [doneCount_all hall] at hPend
      have := hLow (by rw [hcf]; simp)
      omega
  · simpa using hDC hdead

/-! ## The parallel and race policies are well-behaved -/

theorem parallelPolicyOK (α ρ : Type) (N : Nat) (fname : String) (tl : ℚ) :
    PolicyOK (parallelPolicy α ρ N fname tl) (fun p => p.numberPending) := by
  constructor
  · intro p v r i
    simp only [parallelPolicy, parallelOnAction, parallelFinishCheck,
      storeResult]
    split_ifs <;> rfl
  · intro p v r i
    simp only [parallelPolicy, parallelOnAction, parallelFinishCheck,
      storeResult]
    split_ifs <;> rfl
  · intro p v r i hlow
    simp only [parallelPolicy, parallelOnAction, parallelFinishCheck,
      storeResult]
    split_ifs <;> first
      | rfl
      | (exfalso; omega)
  · intro p
    simp only [parallelPolicy, parallelOnTimeout]
    split_ifs <;> rfl
  · intro p
    simp only [parallelPolicy, parallelOnTimeout]
    split_ifs <;> rfl

theorem racePolicyOK (α ρ : Type) (fname : String) (tl : ℚ) :
    PolicyOK (racePolicy α ρ fname tl) (fun p => p.numberPending) := by
  constructor
  · intro p v r i
    simp only [racePolicy, raceOnAction]
    split_ifs <;> rfl
  · intro p v r i
    simp only [racePolicy, raceOnAction]
    split_ifs <;> rfl
  · intro p v r i hlow
    simp only [racePolicy, raceOnAction]
    split_ifs <;> rfl
  · intro p
    simp only [racePolicy, raceOnTimeout]
  · intro p
    simp only [racePolicy, raceOnTimeout]
    rfl

/-! ## At-most-once action per child -/

@[simp] theorem actionCountFor_nil {α ρ : Type} (i0 : Nat) :
    actionCountFor i0 ([] : List (Effect α ρ)) = 0 := rfl

@[simp] theorem actionCountFor_append {α ρ : Type} (i0 : Nat)
    (a b : List (Effect α ρ)) :
    actionCountFor i0 (a ++ b) = actionCountFor i0 a + actionCountFor i0 b := by
  simp [actionCountFor, actionList, List.countP_append]

@[simp] theorem actionCountFor_cons_launch {α ρ : Type} (i0 i : Nat)
    (m : Option α) (l : List (Effect α ρ)) :
    actionCountFor i0 (Effect.launch i m :: l) = actionCountFor i0 l := by
  simp [actionCountFor, actionList, List.filterMap_cons, actionOf]

@[simp] theorem actionCountFor_cons_cancelChild {α ρ : Type} (i0 i : Nat)
    (r : RVal ρ) (l : List (Effect α ρ)) :
    actionCountFor i0 (Effect.cancelChild i r :: l) = actionCountFor i0 l := by
  simp [actionCountFor, actionList, List.filterMap_cons, actionOf]

@[simp] theorem actionCountFor_cons_recv {α ρ : Type} (i0 : Nat)
    (m : RecvMsg α ρ) (l : List (Effect α ρ)) :
    actionCountFor i0 (Effect.recv m :: l) = actionCountFor i0 l := by
  simp [actionCountFor, actionList, List.filterMap_cons, actionOf]

theorem actionCountFor_cons_action {α ρ : Type} (i0 i : Nat) (v : Option α)
    (r : Option ρ) (l : List (Effect α ρ)) :
    actionCountFor i0 (Effect.action i v r :: l) =
      (if i = i0 then 1 else 0) + actionCountFor i0 l := by
  simp only [actionCountFor, actionList, List.filterMap_cons, actionOf,
    List.countP_cons]
  by_cases h : i = i0
  · simp only [h, if_pos rfl, beq_self_eq_true, if_true]
    omega
  · have : (decide (i = i0)) = false := by simp [h]
    simp only [if_neg h]
    simp [this, h]

theorem actionCountFor_of_actionList_nil {α ρ : Type} (i0 : Nat)
    (l : List (Effect α ρ)) (h : actionList l = []) :
    actionCountFor i0 l = 0 := by
  simp [actionCountFor, h]

/-- The per-child invariant: child `i0`'s action has run at most once, and
only with its gate now closed; children at or past `nextNumber` are
unlaunched. -/
def InvC {α ρ π : Type} (i0 : Nat) (s : EngState α ρ π) (c : Nat) : Prop :=
  c ≤ 1 ∧ (c = 1 → s.gates i0 = Gate.done) ∧
  (∀ j, s.nextNumber ≤ j → s.gates j = Gate.waiting)

theorem invC_start {α ρ π : Type} (E : Engine α ρ π) (i0 : Nat) :
    ∀ (fuel : Nat) (msg : Option α) (s : EngState α ρ π) (c : Nat),
    InvC i0 s c →
    InvC i0 (startRequestorFuel E fuel msg s).1
      (c + actionCountFor i0 (startRequestorFuel E fuel msg s).2) := by
  intro fuel
  induction fuel with
  | zero => intro msg s c h; simpa [startRequestorFuel] using h
  | succ fuel ih =>
      intro msg s c h
      obtain ⟨h1, h2, h3⟩ := id h
      rcases hc : s.cancellors with _ | slots
      · rw [startRequestorFuel_dead E _ msg s hc]
        simpa using h
      · by_cases hn : s.nextNumber < E.children.length
        · have hwait : s.gates s.nextNumber = Gate.waiting :=
            h3 _ (le_refl _)
          rcases hl : (E.children.get ⟨s.nextNumber, hn⟩).onLaunch msg
            with c0 | e0
          · simp only [startRequestorFuel, hc, hn, dif_pos, hl]
            refine ⟨?_, ?_, ?_⟩
            · simpa [actionCountFor, actionList, List.filterMap_cons,
                actionOf] using h1
            · intro hh
              dsimp only
              simp [actionCountFor, actionList, List.filterMap_cons,
                actionOf] at hh
              have hdone := h2 hh
              by_cases hji : i0 = s.nextNumber
              · exfalso
                rw [hji, hwait] at hdone
                simp at hdone
              · rw [Function.update_noteq (by omega)]
                exact hdone
            · intro j hj
              dsimp only at hj ⊢
              rw [Function.update_noteq (by omega)]
              exact h3 j (by omega)
          · -- throw: the action for `nextNumber` fires once
            simp only [startRequestorFuel, hc, hn, dif_pos, hl]
            rcases hx : applyOut E
                (E.policy.onAction s.pstate none (some e0) s.nextNumber)
                { s with cancellors := some slots
                       , nextNumber := s.nextNumber + 1
                       , gates := Function.update s.gates s.nextNumber
                           Gate.done } with ⟨s2, effs⟩
            have hga : s2.gates = Function.update s.gates s.nextNumber
                Gate.done := by
              have := applyOut_gates E
                (E.policy.onAction s.pstate none (some e0) s.nextNumber)
                { s with cancellors := some slots
                       , nextNumber := s.nextNumber + 1
                       , gates := Function.update s.gates s.nextNumber
                           Gate.done }
              rw [hx] at this
              exact this
            have hna : s2.nextNumber = s.nextNumber + 1 := by
              have := applyOut_nextNumber E
                (E.policy.onAction s.pstate none (some e0) s.nextNumber)
                { s with cancellors := some slots
                       , nextNumber := s.nextNumber + 1
                       , gates := Function.update s.gates s.nextNumber
                           Gate.done }
              rw [hx] at this
              exact this
            have heffs : actionCountFor i0 effs = 0 := by
              have := applyOut_actionList E
                (E.policy.onAction s.pstate none (some e0) s.nextNumber)
                { s with cancellors := some slots
                       , nextNumber := s.nextNumber + 1
                       , gates := Function.update s.gates s.nextNumber
                           Gate.done }
              rw [hx] at this
              exact actionCountFor_of_actionList_nil i0 effs this
            by_cases hji : s.nextNumber = i0
            · -- this throw is child i0's single action
              have hc0 : c = 0 := by
                by_contra hcon
                have := h2 (by omega)
                rw [← hji, hwait] at this
                simp at this
              have hinv2 : InvC i0 s2 1 := by
                refine ⟨le_refl 1, ?_, ?_⟩
                · intro _
                  rw [hga, ← hji, Function.update_same]
                · intro j hj
                  rw [hna] at hj
                  rw [hga, Function.update_noteq (by omega)]
                  exact h3 j (by omega)
              have := ih msg s2 1 hinv2
              rcases hy : startRequestorFuel E fuel msg s2 with ⟨s3, effs2⟩
              rw [hy] at this
              simp only [hx, hy]
              have hcnt : actionCountFor i0
                  (Effect.launch s.nextNumber msg ::
                    Effect.action s.nextNumber none (some e0) ::
                      (effs ++ effs2)) = 1 + actionCountFor i0 effs2 := by
                rw [actionCountFor_cons_launch, actionCountFor_cons_action,
                  actionCountFor_append, heffs, if_pos hji]
                omega
              rw [hcnt, hc0]
              simpa using this
            · -- a different child threw
              have hinv2 : InvC i0 s2 c := by
                refine ⟨h1, ?_, ?_⟩
                · intro hh
                  rw [hga, Function.update_noteq (by omega)]
                  exact h2 hh
                · intro j hj
                  rw [hna] at hj
                  rw [hga, Function.update_noteq (by omega)]
                  exact h3 j (by omega)
              have := ih msg s2 c hinv2
              rcases hy : startRequestorFuel E fuel msg s2 with ⟨s3, effs2⟩
              rw [hy] at this
              simp only [hx, hy]
              have hcnt : actionCountFor i0
                  (Effect.launch s.nextNumber msg ::
                    Effect.action s.nextNumber none (some e0) ::
                      (effs ++ effs2)) = actionCountFor i0 effs2 := by
                rw [actionCountFor_cons_launch, actionCountFor_cons_action,
                  actionCountFor_append, heffs, if_neg hji]
                omega
              rw [hcnt]
              exact this
        · simp only [startRequestorFuel, hc, hn, dif_neg, not_false_iff]
          simpa using h

theorem invC_step {α ρ π : Type} (E : Engine α ρ π) (i0 : Nat)
    (s : EngState α ρ π) (c : Nat) (e : Event α ρ) (h : InvC i0 s c) :
    InvC i0 (stepE E s e).1 (c + actionCountFor i0 (stepE E s e).2) := by
  obtain ⟨h1, h2, h3⟩ := id h
  cases e with
  | dispatch =>
      rcases hq : s.queue with _ | ⟨m, rest⟩
      · simp only [stepE, hq]
        simpa using h
      · simp only [stepE, hq, launchStep]
        exact invC_start E i0 _ m _ c ⟨h1, h2, h3⟩
  | complete i v r =>
      rcases hc : s.cancellors with _ | slots
      · simp only [stepE, completeStep, hc]
        simpa using h
      · by_cases hg : s.gates i = Gate.running
        · simp only [stepE, completeStep, hc, hg, if_pos]
          rcases hx : applyOut E
              (E.policy.onAction s.pstate v r i)
              { s with cancellors := some (Function.update slots i none)
                     , gates := Function.update s.gates i Gate.done }
              with ⟨s2, effs⟩
          have hga : s2.gates = Function.update s.gates i Gate.done := by
            have := applyOut_gates E (E.policy.onAction s.pstate v r i)
              { s with cancellors := some (Function.update slots i none)
                     , gates := Function.update s.gates i Gate.done }
            rw [hx] at this
            exact this
          have hna : s2.nextNumber = s.nextNumber := by
            have := applyOut_nextNumber E (E.policy.onAction s.pstate v r i)
              { s with cancellors := some (Function.update slots i none)
                     , gates := Function.update s.gates i Gate.done }
            rw [hx] at this
            exact this
          have heffs : actionCountFor i0 effs = 0 := by
            have := applyOut_actionList E (E.policy.onAction s.pstate v r i)
              { s with cancellors := some (Function.update slots i none)
                     , gates := Function.update s.gates i Gate.done }
            rw [hx] at this
            exact actionCountFor_of_actionList_nil i0 effs this
          have hilt : i < s.nextNumber := by
            by_contra hcon
            have := h3 i (by omega)
            rw [this] at hg
            exact absurd hg (by simp)
          have hcore : InvC i0 s2
              (c + actionCountFor i0 (Effect.action i v r :: effs)) := by
            rw [actionCountFor_cons_action, heffs]
            by_cases hji : i = i0
            · rw [if_pos hji]
              have hc0 : c = 0 := by
                by_contra hcon
                have hdone := h2 (by omega)
                rw [← hji, hg] at hdone
                simp at hdone
              refine ⟨by omega, ?_, ?_⟩
              · intro _
                rw [hga, ← hji, Function.update_same]
              · intro j hj
                rw [hna] at hj
                rw [hga, Function.update_noteq (by omega)]
                exact h3 j hj
            · rw [if_neg hji]
              refine ⟨by omega, ?_, ?_⟩
              · intro hh
                rw [hga, Function.update_noteq (by omega)]
                exact h2 (by omega)
              · intro j hj
                rw [hna] at hj
                rw [hga, Function.update_noteq (by omega)]
                exact h3 j hj
          by_cases hnn : s2.nextNumber < E.children.length
          · simp only [hnn, if_pos]
            exact ⟨hcore.1, hcore.2.1, hcore.2.2⟩
          · simp only [hnn, if_neg, not_false_iff]
            exact hcore
        · simp only [stepE, completeStep, hc, hg, if_neg, not_false_iff]
          simpa using h
  | timer =>
      by_cases ht : s.timerArmed
      · simp only [stepE, timerStep, ht, if_pos]
        rcases hx : applyOut E
            (E.policy.onTimeout s.pstate) { s with timerArmed := false }
            with ⟨s2, effs⟩
        dsimp only
        have hga := applyOut_gates E (E.policy.onTimeout s.pstate)
          { s with timerArmed := false }
        have hna := applyOut_nextNumber E (E.policy.onTimeout s.pstate)
          { s with timerArmed := false }
        have hal := applyOut_actionList E (E.policy.onTimeout s.pstate)
          { s with timerArmed := false }
        rw [hx] at hga hna hal
        dsimp only at hga hna hal
        rw [actionCountFor_of_actionList_nil i0 effs hal]
        refine ⟨by omega, ?_, ?_⟩
        · intro hh
          rw [hga]
          exact h2 (by omega)
        · intro j hj
          rw [hna] at hj
          rw [hga]
          exact h3 j (by simpa using hj)
      · simp only [stepE, timerStep, ht, if_neg, Bool.false_eq_true,
          not_false_iff]
        simpa using h
  | cancel arg =>
      simp only [stepE]
      have hga := engineCancel_gates E arg s
      have hna := engineCancel_nextNumber E arg s
      have hal := actionList_engineCancel E arg s
      rw [actionCountFor_of_actionList_nil i0 _ hal]
      refine ⟨by omega, ?_, ?_⟩
      · intro hh
        rw [hga]
        exact h2 (by omega)
      · intro j hj
        rw [hna] at hj
        rw [hga]
        exact h3 j hj

theorem invC_runTrace {α ρ π : Type} (E : Engine α ρ π) (i0 : Nat) :
    ∀ (evs : List (Event α ρ)) (s : EngState α ρ π) (c : Nat),
    InvC i0 s c →
    InvC i0 (runTrace E s evs).1
      (c + actionCountFor i0 (runTrace E s evs).2) := by
  intro evs
  induction evs with
  | nil => intro s c h; simpa [runTrace] using h
  | cons e evs ih =>
      intro s c h
      have h1 := invC_step E i0 s c e h
      rcases hx : stepE E s e with ⟨s1, f1⟩
      rw [hx] at h1
      have h2 := ih s1 (c + actionCountFor i0 f1) h1
      rcases hy : runTrace E s1 evs with ⟨s2, f2⟩
      rw [hy] at h2
      simp only [runTrace, hx, hy]
      simpa [Nat.add_assoc] using h2

/-- At-most-once action per child: over any event trace—including
duplicate receiver invocations from an ill-behaved child—the engine runs
the action at most once for each child index. -/
theorem actionAtMostOncePerChild {α ρ π : Type} (E : Engine α ρ π)
    (armed : Bool) (throttle : Nat) (p0 : π) (i0 : Nat)
    (evs : List (Event α ρ)) :
    actionCountFor i0 (runTrace E (initState E armed throttle p0) evs).2 ≤ 1 := by
  have := invC_runTrace E i0 evs (initState E armed throttle p0) 0
    ⟨by omega, by omega, fun j _ => rfl⟩
  simpa using this.1

/-! ## Characterisation of cancellation -/

/-- The reason `cancel` uses when invoked with an argument `arg` (the JS
default parameter replaces `undefined` with the default reason). -/
def cancelReason {ρ : Type} (fname : String) (arg : Option (RVal ρ)) :
    RVal ρ :=
  arg.getD (RVal.made (makeReason (some fname) (some "Cancel!") none))

/-- The cancellor invocations the engine performs when cancelling: one call
per still-stored child cancellor, in index order, regardless of whether any
of them throws (the `try/catch` swallows those exceptions and the `forEach`
continues). -/
def cancelBurst {α ρ : Type} (len : Nat)
    (slots : Nat → Option Cancellor) (reason : RVal ρ) :
    List (Effect α ρ) :=
  (List.range len).filterMap fun i =>
    (slots i).map fun _ => Effect.cancelChild i reason

/-- The first `cancel` call on a live engine: it disarms the timer, invokes
every still-stored child cancellor exactly once in index order with the
supplied (or default) reason, and destroys the cancellor array. -/
theorem engineCancel_live {α ρ π : Type} (E : Engine α ρ π)
    (arg : Option (RVal ρ)) (s : EngState α ρ π)
    (slots : Nat → Option Cancellor) (hc : s.cancellors = some slots) :
    engineCancel E arg s =
      ({ s with timerArmed := false, cancellors := none },
       cancelBurst E.children.length slots
         (cancelReason E.factoryName arg)) := by
  unfold engineCancel cancelBurst cancelReason
  simp [hc]

/-- A second `cancel` call (cancellor array gone, timer disarmed) does
nothing at all. -/
theorem engineCancel_idem {α ρ π : Type} (E : Engine α ρ π)
    (arg : Option (RVal ρ)) (s : EngState α ρ π)
    (h1 : s.cancellors = none) (h2 : s.timerArmed = false) :
    engineCancel E arg s = (s, []) := by
  rcases s with ⟨a, b, c, d, e, f⟩
  simp only at h1 h2
  subst h1 h2
  simp [engineCancel]

/-- Any number of further `cancel` calls after cancellation are no-ops. -/
theorem runTrace_cancels_after_cancel {α ρ π : Type} (E : Engine α ρ π)
    (s : EngState α ρ π) (h1 : s.cancellors = none)
    (h2 : s.timerArmed = false) :
    ∀ args : List (Option (RVal ρ)),
    runTrace E s (args.map Event.cancel) = (s, []) := by
  intro args
  induction args with
  | nil => rfl
  | cons a args ih =>
      simp only [List.map_cons, runTrace, stepE]
      rw [engineCancel_idem E a s h1 h2, ih]
      rfl

/-- A child completion delivered after cancellation is a strict no-op: the
state is unchanged and no effect—in particular no action invocation and no
receiver invocation—occurs. -/
theorem completeStep_after_cancel {α ρ π : Type} (E : Engine α ρ π)
    (i : Nat) (v : Option α) (r : Option ρ) (s : EngState α ρ π)
    (h1 : s.cancellors = none) :
    completeStep E i v r s = (s, []) := by
  unfold completeStep
  simp [h1]

/-! ## Characterisation of a race win -/

/-- The reason race's action builds for the losers: `makeReason` applied to
the factory name, the excuse "Cancelling loser!", and the winner's index as
evidence (race.js lines 308-312).  Only the evidence survives into the
returned object: the reason the losers' cancellors receive carries no
factory or loser tag of any kind. -/
def loserReason (fname : String) (winner : Nat) : MadeReason :=
  makeReason (some fname) (some "Cancelling loser!")
    (some (Evidence.idx winner))

/-- The effects of a handler that both cancels and invokes the receiver:
the cancellor burst, then the receiver invocation. -/
theorem applyOut_effects_of_cancel_recv {α ρ π : Type} (E : Engine α ρ π)
    (out : HandlerOut α ρ π) (s : EngState α ρ π) (arg : Option (RVal ρ))
    (m : RecvMsg α ρ) (hcw : out.cancelWith = some arg)
    (hr : out.recv = some m) :
    (applyOut E out s).2 =
      (engineCancel E arg { s with pstate := out.pstate }).2 ++
        [Effect.recv m] := by
  unfold applyOut
  simp only [hcw, hr]

/-- The effects of an accepted completion: the action invocation followed
by whatever the action's handler output produces. -/
theorem completeStep_effects_accepted {α ρ π : Type} (E : Engine α ρ π)
    (i : Nat) (v : Option α) (r : Option ρ) (s : EngState α ρ π)
    (slots : Nat → Option Cancellor)
    (hc : s.cancellors = some slots) (hg : s.gates i = Gate.running) :
    (completeStep E i v r s).2 =
      Effect.action i v r ::
        (applyOut E (E.policy.onAction s.pstate v r i)
          { s with cancellors := some (Function.update slots i none)
                 , gates := Function.update s.gates i Gate.done }).2 := by
  unfold completeStep
  simp only [hc, hg, if_pos]

/-- The post-state of an accepted completion differs from the action
handler's post-state only in the queue. -/
theorem completeStep_state_accepted {α ρ π : Type} (E : Engine α ρ π)
    (i : Nat) (v : Option α) (r : Option ρ) (s : EngState α ρ π)
    (slots : Nat → Option Cancellor)
    (hc : s.cancellors = some slots) (hg : s.gates i = Gate.running) :
    (completeStep E i v r s).1.cancellors =
      (applyOut E (E.policy.onAction s.pstate v r i)
        { s with cancellors := some (Function.update slots i none)
               , gates := Function.update s.gates i Gate.done }).1.cancellors ∧
    (completeStep E i v r s).1.timerArmed =
      (applyOut E (E.policy.onAction s.pstate v r i)
        { s with cancellors := some (Function.update slots i none)
               , gates := Function.update s.gates i Gate.done }).1.timerArmed := by
  unfold completeStep
  simp only [hc, hg, if_pos]
  rcases hx : applyOut E (E.policy.onAction s.pstate v r i)
      { s with cancellors := some (Function.update slots i none)
             , gates := Function.update s.gates i Gate.done }
      with ⟨s2, effs⟩
  by_cases hnn : s2.nextNumber < E.children.length <;> simp [hnn]

/-- A completion with a present value accepted by a live race engine: the
engine clears the winner's cancellor slot, the action fires once, every
still-stored sibling cancellor is invoked (in index order) with the
`loserReason` object—which carries only the winner's index as evidence—the
composite receiver is invoked once with the winner's `{value, reason}`, and
the engine ends cancelled with its timer disarmed. -/
theorem race_complete_win {α ρ : Type} (children : List (Child α ρ))
    (fname : String) (tl : ℚ) (msg : Option α) (i : Nat) (v : α)
    (r : Option ρ) (s : EngState α ρ RaceState)
    (slots : Nat → Option Cancellor)
    (hc : s.cancellors = some slots) (hg : s.gates i = Gate.running) :
    (completeStep (mkRaceEngine children fname tl msg) i (some v) r s).2 =
      Effect.action i (some v) r ::
        cancelBurst children.length (Function.update slots i none)
          (RVal.made (loserReason fname i)) ++
        [Effect.recv { value := some (RecvValue.item v)
                     , reason := r.map RVal.child }] ∧
    (completeStep (mkRaceEngine children fname tl msg) i (some v) r s).1.cancellors
      = none ∧
    (completeStep (mkRaceEngine children fname tl msg) i (some v) r s).1.timerArmed
      = false := by
  have houtc : ((mkRaceEngine children fname tl msg).policy.onAction
      s.pstate (some v) r i).cancelWith =
      some (some (RVal.made (loserReason fname i))) := by
    simp [mkRaceEngine, racePolicy, raceOnAction, loserReason]
  have houtr : ((mkRaceEngine children fname tl msg).policy.onAction
      s.pstate (some v) r i).recv =
      some { value := some (RecvValue.item v)
           , reason := r.map RVal.child } := by
    simp [mkRaceEngine, racePolicy, raceOnAction]
  refine ⟨?_, ?_, ?_⟩
  · rw [completeStep_effects_accepted _ _ _ _ _ slots hc hg,
      applyOut_effects_of_cancel_recv _ _ _ _ _ houtc houtr]
    rw [engineCancel_live _ _ _ (Function.update slots i none) rfl]
    simp [mkRaceEngine, cancelReason]
  · rw [(completeStep_state_accepted _ _ _ _ _ slots hc hg).1]
    exact (applyOut_cancellors_of_cancel _ _ _ (by rw [houtc]; rfl)).1
  · rw [(completeStep_state_accepted _ _ _ _ _ slots hc hg).2]
    exact (applyOut_cancellors_of_cancel _ _ _ (by rw [houtc]; rfl)).2

/-! ## Sequence message threading -/

/-- A pure mapping requestor as the engine sees it: it never throws at
launch and returns no cancellor; its (synchronous) receiver invocation is
delivered by the `syncExec` driver. -/
def mapChild (α ρ : Type) : Child α ρ :=
  { isFunction := true, length := some 2
  , onLaunch := fun _ => LaunchBehavior.ret none }

/-- The engine configuration of `sequence([map f1, ..., map fn])`:
`parallel` with factory name SEQUENCE; the normalisation's
necessities-without-optionals branch leaves `timeOption = none`. -/
def seqEngine (α : Type) (fs : List (α → α)) (m : α) :
    Engine α Unit (ParState α Unit) :=
  mkParallelEngine (fs.map fun _ => mapChild α Unit) sequenceName
    fs.length 0 (some m)

/-- The receiver behaviour of the `k`-th map child: it succeeds with
`fs[k]` applied to the message it received. -/
def mapCv {α : Type} (fs : List (α → α)) :
    Nat → Option α → ChildResult α Unit :=
  fun i w =>
    match fs.get? i, w with
    | some f, some v => { value := some (f v), reason := none }
    | _, _ => { value := none, reason := none }

/-- The message handed to child `k` of the sequence: the left fold of the
first `k` functions over the initial message. -/
def prefixFold {α : Type} (fs : List (α → α)) (m : α) (k : Nat) : α :=
  (fs.take k).foldl (fun a f => f a) m

theorem prefixFold_zero {α : Type} (fs : List (α → α)) (m : α) :
    prefixFold fs m 0 = m := rfl

theorem prefixFold_succ {α : Type} (fs : List (α → α)) (m : α) (k : Nat)
    (hk : k < fs.length) :
    prefixFold fs m (k + 1) = fs.get ⟨k, hk⟩ (prefixFold fs m k) := by
  unfold prefixFold
  rw [List.take_succ, List.foldl_append]
  have hgk : fs[k]? = some (fs.get ⟨k, hk⟩) := by
    rw [List.getElem?_eq_getElem hk]
    simp
  rw [hgk]
  rfl

/-- The engine state mid-sequence: the first `k` children have completed,
the task queue holds one `startRequestor` carrying the threaded message
`w`, every cancellor slot is empty (map children return none), and the
counters stand at `n - k`. -/
def seqMid (α : Type) (n k : Nat) (w : α)
    (rs : Nat → Option (ChildResult α Unit)) :
    EngState α Unit (ParState α Unit) :=
  { cancellors := some fun _ => none
  , gates := fun j => if j < k then Gate.done else Gate.waiting
  , nextNumber := k
  , timerArmed := false
  , queue := [some w]
  , pstate :=
    { numberPending := (n : Int) - (k : Int)
    , numberPendingNecessities := (n : Int) - (k : Int)
    , results := rs
    , resultsLen := k
    , timeOption := none } }

theorem seq_gates_update {k : Nat} :
    Function.update (fun j => if j < k then Gate.done else Gate.waiting) k
      Gate.done = fun j => if j < k + 1 then Gate.done else Gate.waiting := by
  funext j
  by_cases hj : j = k
  · subst hj
    simp [Function.update_same]
  · rw [Function.update_noteq hj]
    by_cases hlt : j < k
    · have h1 : j < k + 1 := by omega
      simp [hlt, h1]
    · have h1 : ¬(j < k + 1) := by omega
      simp [hlt, h1]

theorem seq_slots_collapse :
    Function.update (fun _ => (none : Option Cancellor)) 0 none =
      fun _ => (none : Option Cancellor) := by
  funext j
  by_cases hj : j = 0 <;> simp [hj]

/-- The state reached after the dispatch round of `seq_round`. -/
def seqLaunched (α : Type) (n k : Nat) (w : α)
    (rs : Nat → Option (ChildResult α Unit)) :
    EngState α Unit (ParState α Unit) :=
  { seqMid α n k w rs with
      queue := []
    , nextNumber := k + 1
    , cancellors := some (Function.update (fun _ => none) k none)
    , gates := Function.update
        (fun j => if j < k then Gate.done else Gate.waiting) k
        Gate.running }

/-- The dispatch round of the sequence machine: the engine launches child
`k` with the threaded message. -/
theorem seq_round {α : Type} (fs : List (α → α)) (m : α) (k : Nat)
    (w : α) (rs : Nat → Option (ChildResult α Unit))
    (hk : k < fs.length) :
    (stepE (seqEngine α fs m) (seqMid α fs.length k w rs) Event.dispatch) =
      (seqLaunched α fs.length k w rs, [Effect.launch k (some w)]) := by
  simp only [stepE, seqMid, seqLaunched, launchStep, startRequestorFuel]
  have hn : k < (seqEngine α fs m).children.length := by
    simpa [seqEngine, mkParallelEngine] using hk
  rw [dif_pos hn]
  have : ((seqEngine α fs m).children.get ⟨k, hn⟩).onLaunch (some w) =
      LaunchBehavior.ret none := by
    simp [seqEngine, mkParallelEngine, mapChild]
  rw [this]

theorem mapCv_eval {α : Type} (fs : List (α → α)) (k : Nat) (w : α)
    (hk : k < fs.length) :
    mapCv fs k (some w) =
      { value := some (fs.get ⟨k, hk⟩ w), reason := none } := by
  unfold mapCv
  rw [List.get?_eq_get hk]

/-- The completion round of a non-final sequence child: the action stores
the mapped value and the machine is exactly the `k+1` mid-state with the
threaded message queued. -/
theorem seq_round2 {α : Type} (fs : List (α → α)) (m : α) (k : Nat)
    (w : α) (rs : Nat → Option (ChildResult α Unit))
    (hk : k < fs.length) (hk1 : k + 1 < fs.length) :
    stepE (seqEngine α fs m) (seqLaunched α fs.length k w rs)
        (Event.complete k (some (fs.get ⟨k, hk⟩ w)) none) =
      (seqMid α fs.length (k + 1) (fs.get ⟨k, hk⟩ w)
        (Function.update rs k
          (some { value := some (fs.get ⟨k, hk⟩ w), reason := none }))
      , [Effect.action k (some (fs.get ⟨k, hk⟩ w)) none]) := by
  have hact : parallelOnAction fs.length sequenceName
      { numberPending := (fs.length : Int) - (k : Int)
      , numberPendingNecessities := (fs.length : Int) - (k : Int)
      , results := rs, resultsLen := k, timeOption := none }
      (some (fs.get ⟨k, hk⟩ w)) none k =
      { pstate :=
        { numberPending := (fs.length : Int) - (k : Int) - 1
        , numberPendingNecessities := (fs.length : Int) - (k : Int) - 1
        , results := Function.update rs k
            (some { value := some (fs.get ⟨k, hk⟩ w), reason := none })
        , resultsLen := max k (k + 1)
        , timeOption := none }
      , cancelWith := none
      , recv := none } := by
    have hcond : ¬((fs.length : Int) - (k : Int) - 1 < 1 ∨
        (none : Option String) = some skipOptionals ∧
          (fs.length : Int) - (k : Int) - 1 < 1) := by
      push_neg
      refine ⟨by omega, fun hh => absurd hh (by simp)⟩
    unfold parallelOnAction storeResult parallelFinishCheck
    rw [if_pos hk]
    simp only [Option.isNone_some, Bool.false_eq_true, if_false]
    rw [if_neg hcond]
  simp only [stepE, completeStep, seqLaunched, seqMid, seqEngine,
    mkParallelEngine, parallelPolicy, Function.update_same,
    eq_self_iff_true, if_true]
  rw [hact]
  simp only [applyOut]
  simp only [List.length_map, hk1, if_true, if_pos]
  refine Prod.ext ?_ ?_
  · ext : 1
    · dsimp only
      refine congrArg some ?_
      funext j
      simp [Function.update_apply]
    · dsimp only
      funext j
      simp only [Function.update_apply]
      by_cases hj : j = k
      · have h1 : k < k + 1 := by omega
        simp [hj, h1]
      · by_cases hlt : j < k
        · have h1 : j < k + 1 := by omega
          simp [hj, hlt, h1]
        · have h1 : ¬(j < k + 1) := by omega
          simp [hj, hlt, h1]
    · rfl
    · rfl
    · simp
    · ext : 1
      · dsimp only
        push_cast
        omega
      · dsimp only
        push_cast
        omega
      · rfl
      · dsimp only
        omega
      · rfl
  · rfl

/-- The queue after an accepted completion that does not enqueue another
start (all children already launched). -/
theorem completeStep_queue_accepted {α ρ π : Type} (E : Engine α ρ π)
    (i : Nat) (v : Option α) (r : Option ρ) (s : EngState α ρ π)
    (slots : Nat → Option Cancellor)
    (hc : s.cancellors = some slots) (hg : s.gates i = Gate.running)
    (hnn : ¬((applyOut E (E.policy.onAction s.pstate v r i)
      { s with cancellors := some (Function.update slots i none)
             , gates := Function.update s.gates i Gate.done }).1.nextNumber <
        E.children.length)) :
    (completeStep E i v r s).1.queue =
      (applyOut E (E.policy.onAction s.pstate v r i)
        { s with cancellors := some (Function.update slots i none)
               , gates := Function.update s.gates i Gate.done }).1.queue := by
  unfold completeStep
  simp only [hc, hg, if_pos]
  rcases hx : applyOut E (E.policy.onAction s.pstate v r i)
      { s with cancellors := some (Function.update slots i none)
             , gates := Function.update s.gates i Gate.done }
      with ⟨s2, effs⟩
  rw [hx] at hnn
  simp [hnn]

/-- The handler output of the last sequence child's action: finish, with
the receiver getting `results.pop()`, whose value is the final threaded
value. -/
theorem seq_last_action {α : Type} (fs : List (α → α)) (k : Nat)
    (w : α) (rs : Nat → Option (ChildResult α Unit))
    (hk : k < fs.length) (hlast : k + 1 = fs.length) :
    parallelOnAction fs.length sequenceName
      { numberPending := (fs.length : Int) - (k : Int)
      , numberPendingNecessities := (fs.length : Int) - (k : Int)
      , results := rs, resultsLen := k, timeOption := none }
      (some (fs.get ⟨k, hk⟩ w)) none k =
      { pstate :=
        { numberPending := (fs.length : Int) - (k : Int) - 1
        , numberPendingNecessities := (fs.length : Int) - (k : Int) - 1
        , results := Function.update rs k
            (some { value := some (fs.get ⟨k, hk⟩ w), reason := none })
        , resultsLen := max k (k + 1)
        , timeOption := none }
      , cancelWith := some (some (RVal.made (makeReason (some sequenceName)
          (some ("All necessities are complete, optional requestors are " ++
                 "being canceled")) none)))
      , recv := some { value := some (RecvValue.item (fs.get ⟨k, hk⟩ w))
                     , reason := none } } := by
  have hcond : ((fs.length : Int) - (k : Int) - 1 < 1 ∨
      (none : Option String) = some skipOptionals ∧
        (fs.length : Int) - (k : Int) - 1 < 1) := by
    left
    omega
  unfold parallelOnAction storeResult parallelFinishCheck
  rw [if_pos hk]
  simp only [Option.isNone_some, Bool.false_eq_true, if_false]
  rw [if_pos hcond]
  have hpop : seqPopMsg
      { numberPending := (fs.length : Int) - (k : Int) - 1
      , numberPendingNecessities := (fs.length : Int) - (k : Int) - 1
      , results := Function.update rs k
          (some { value := some (fs.get ⟨k, hk⟩ w), reason := none })
      , resultsLen := max k (k + 1)
      , timeOption := (none : Option String) } =
      { value := some (RecvValue.item (fs.get ⟨k, hk⟩ w)), reason := none } := by
    unfold seqPopMsg popResult
    dsimp only
    rw [show max k (k + 1) - 1 = k by omega, Function.update_same]
    rfl
  simp only [hpop]
  simp [sequenceName]

/-- The completion round of the final sequence child: the action fires, the
engine cancels itself (no cancellors are stored, so no cancellor calls) and
the receiver obtains the popped final child result; nothing remains
queued. -/
theorem seq_final {α : Type} (fs : List (α → α)) (m : α) (k : Nat)
    (w : α) (rs : Nat → Option (ChildResult α Unit))
    (hk : k < fs.length) (hlast : k + 1 = fs.length) :
    (stepE (seqEngine α fs m) (seqLaunched α fs.length k w rs)
        (Event.complete k (some (fs.get ⟨k, hk⟩ w)) none)).2 =
      [Effect.action k (some (fs.get ⟨k, hk⟩ w)) none,
       Effect.recv { value := some (RecvValue.item (fs.get ⟨k, hk⟩ w))
                   , reason := none }] ∧
    (stepE (seqEngine α fs m) (seqLaunched α fs.length k w rs)
        (Event.complete k (some (fs.get ⟨k, hk⟩ w)) none)).1.queue = [] := by
  have hc : (seqLaunched α fs.length k w rs).cancellors =
      some (Function.update (fun _ => none) k none) := rfl
  have hg : (seqLaunched α fs.length k w rs).gates k = Gate.running := by
    simp [seqLaunched, Function.update_same]
  have hout : (seqEngine α fs m).policy.onAction
      (seqLaunched α fs.length k w rs).pstate
      (some (fs.get ⟨k, hk⟩ w)) none k =
      parallelOnAction fs.length sequenceName
        { numberPending := (fs.length : Int) - (k : Int)
        , numberPendingNecessities := (fs.length : Int) - (k : Int)
        , results := rs, resultsLen := k, timeOption := none }
        (some (fs.get ⟨k, hk⟩ w)) none k := by
    rfl
  have hslots : ∀ j, (Function.update
      (Function.update (fun _ => (none : Option Cancellor)) k none) k none) j
      = none := by
    intro j
    simp [Function.update_apply]
  constructor
  · simp only [stepE]
    rw [completeStep_effects_accepted _ _ _ _ _ _ hc hg]
    rw [applyOut_effects_of_cancel_recv _ _ _ _ _
      (by rw [hout, seq_last_action fs k w rs hk hlast])
      (by rw [hout, seq_last_action fs k w rs hk hlast])]
    rw [engineCancel_live _ _ _ _ rfl]
    have hburst : cancelBurst (seqEngine α fs m).children.length
        (Function.update (Function.update (fun _ => none) k none) k none)
        (cancelReason (seqEngine α fs m).factoryName
          ((some (RVal.made (makeReason (some sequenceName)
            (some ("All necessities are complete, optional requestors are " ++
                   "being canceled")) none))) : Option (RVal Unit))) =
        ([] : List (Effect α Unit)) := by
      unfold cancelBurst
      rw [List.filterMap_eq_nil]
      intro x hx
      rw [List.mem_range] at hx
      simp [hslots]
    rw [hburst]
    rfl
  · simp only [stepE]
    rw [completeStep_queue_accepted _ _ _ _ _ _ hc hg ?_]
    · rw [applyOut_queue]
      rfl
    · rw [applyOut_nextNumber]
      have : (seqLaunched α fs.length k w rs).nextNumber = k + 1 := rfl
      simp only [seqLaunched, seqEngine, mkParallelEngine, List.length_map]
      omega

/-- The synchronous execution of the sequence machine from the `k`-th
mid-state: the receiver fires exactly once with the full left fold, every
remaining child `j` is launched with the fold of the first `j` functions,
and its action stores the fold of the first `j+1`. -/
theorem seq_exec {α : Type} (fs : List (α → α)) (m : α) :
    ∀ (d k : Nat) (rs : Nat → Option (ChildResult α Unit)),
      k < fs.length → fs.length - k = d →
      recvMsgs (syncExec (seqEngine α fs m) (mapCv fs) d
          (seqMid α fs.length k (prefixFold fs m k) rs)).2 =
        [{ value := some (RecvValue.item (prefixFold fs m fs.length))
         , reason := none }] ∧
      launchList (syncExec (seqEngine α fs m) (mapCv fs) d
          (seqMid α fs.length k (prefixFold fs m k) rs)).2 =
        (List.range' k d).map (fun j => (j, some (prefixFold fs m j))) ∧
      actionList (syncExec (seqEngine α fs m) (mapCv fs) d
          (seqMid α fs.length k (prefixFold fs m k) rs)).2 =
        (List.range' k d).map
          (fun j => (j, some (prefixFold fs m (j + 1)), (none : Option Unit))) := by
  intro d
  induction d with
  | zero =>
      intro k rs hk hd
      omega
  | succ d ih =>
      intro k rs hk hd
      have hq : (seqMid α fs.length k (prefixFold fs m k) rs).queue =
          some (prefixFold fs m k) :: [] := rfl
      have hnn : (seqMid α fs.length k (prefixFold fs m k) rs).nextNumber =
          k := rfl
      simp only [syncExec, hq, hnn,
        mapCv_eval fs k (prefixFold fs m k) hk,
        seq_round fs m k (prefixFold fs m k) rs hk]
      by_cases hk1 : k + 1 < fs.length
      · simp only [seq_round2 fs m k (prefixFold fs m k) rs hk hk1]
        rw [← prefixFold_succ fs m k hk]
        rcases hz : syncExec (seqEngine α fs m) (mapCv fs) d
            (seqMid α fs.length (k + 1) (prefixFold fs m (k + 1))
              (Function.update rs k
                (some { value := some (prefixFold fs m (k + 1))
                      , reason := none }))) with ⟨s3, f3⟩
        have hIH := ih (k + 1)
          (Function.update rs k
            (some { value := some (prefixFold fs m (k + 1))
                  , reason := none })) hk1 (by omega)
        rw [hz] at hIH
        obtain ⟨hr, hl, ha⟩ := hIH
        refine ⟨?_, ?_, ?_⟩
        · simpa [recvMsgs, launchOf, actionOf, recvOf,
            List.filterMap_cons] using hr
        · rw [List.range'_succ]
          simp only [List.map_cons]
          rw [← hl]
          simp [launchList, launchOf, List.filterMap_cons]
        · rw [List.range'_succ]
          simp only [List.map_cons]
          rw [← ha, prefixFold_succ fs m k hk]
          simp [actionList, actionOf, List.filterMap_cons]
      · have hd0 : d = 0 := by omega
        have hlast : k + 1 = fs.length := by omega
        subst hd0
        rcases hy : stepE (seqEngine α fs m)
            (seqLaunched α fs.length k (prefixFold fs m k) rs)
            (Event.complete k (some (fs.get ⟨k, hk⟩ (prefixFold fs m k)))
              none) with ⟨s2, f2⟩
        have hfin := seq_final fs m k (prefixFold fs m k) rs hk hlast
        rw [hy] at hfin
        obtain ⟨hf2, _⟩ := hfin
        dsimp only at hf2
        subst hf2
        have hfold : fs.get ⟨k, hk⟩ (prefixFold fs m k) =
            prefixFold fs m fs.length := by
          rw [← prefixFold_succ fs m k hk, hlast]
        simp only [syncExec]
        refine ⟨?_, ?_, ?_⟩
        · simp [recvMsgs, recvOf, List.filterMap_cons, hfold]
        · simp [launchList, launchOf, List.filterMap_cons, List.range']
        · simp only [List.range']
          simp [actionList, actionOf, List.filterMap_cons,
            ← prefixFold_succ fs m k hk]

/-- The initial state `run` builds for a non-empty sequence (throttle 1, no
time limit, closure state from `parallelRequestor`) is exactly the `k = 0`
mid-state of the threading argument. -/
theorem seq_init {α : Type} (fs : List (α → α)) (m : α)
    (hne : 0 < fs.length) :
    initState (seqEngine α fs m) false 1
        (parInit α Unit fs.length fs.length none) =
      seqMid α fs.length 0 m (fun _ => none) := by
  have hlen : (seqEngine α fs m).children.length = fs.length := by
    simp [seqEngine, mkParallelEngine]
  ext : 1
  · rfl
  · funext j
    simp [initState, seqMid]
  · rfl
  · rfl
  · simp only [initState, seqMid, hlen]
    have h1 : (if (1 : Nat) = 0 then fs.length else 1) = 1 := by
      simp
    rw [h1, Nat.min_eq_left hne]
    rfl
  · ext : 1
    · simp [initState, parInit, seqMid]
    · simp [initState, parInit, seqMid]
    · rfl
    · rfl
    · rfl

/-! ## The claims -/

/-- A child that returns immediately with no cancellor: the simplest
well-formed requestor shape, used to instantiate the theorems below on
concrete inputs. -/
def retChild (α ρ : Type) : Child α ρ :=
  { isFunction := true, length := some 2
  , onLaunch := fun _ => LaunchBehavior.ret none }

/-- C8: `parallel` on an empty requestor set succeeds immediately with the
empty results array as its value, and `sequence` on an empty list succeeds
immediately with the initial message as its value; in both cases the factory
pipeline accepts the configuration and the composite answers with the
`CompositeStart.immediate` outcome—one receiver invocation, no engine, no
child launches, no cancellor. -/
theorem emptyCompositeImmediate {α ρ : Type} (tIn : Option String)
    (m : Option α) (tOpt : Option String) (tl : ℚ) (armed : Bool)
    (throttle : Nat) :
    sequenceFactory ([] : List (Child α ρ)) =
      Except.ok ([], 0, some skipOptionals) ∧
    parallelFactory ([] : List (Child α ρ)) [] tIn =
      Except.ok ([], 0, some (tIn.getD skipOptionals)) ∧
    parallelRequestorStart ([] : List (Child α ρ)) 0 sequenceName tOpt tl
        armed throttle m =
      CompositeStart.immediate { value := m.map RecvValue.item
                               , reason := none } ∧
    parallelRequestorStart ([] : List (Child α ρ)) 0 parallelName tOpt tl
        armed throttle m =
      CompositeStart.immediate { value := some (RecvValue.arr [])
                               , reason := none } := by
  refine ⟨rfl, rfl, rfl, ?_⟩
  unfold parallelRequestorStart
  norm_num [parallelName, sequenceName]
  exact fun h => absurd h (by decide)

/-- C3: the membership test guarding a user-supplied `timeOption` reads the
identifier `allTimeOption`, which is defined nowhere (the constants module
exports `allTimeOptions`), so whenever both requestor lists are non-empty
the factory throws a ReferenceError—for every `timeOption`, the valid
members of the closed TimeOption set included—instead of accepting valid
values and rejecting only invalid ones. -/
theorem timeOptionValidationUnreachable {α ρ : Type}
    (necessities optionals : List (Child α ρ)) (tIn : Option String)
    (h1 : necessities.length ≠ 0) (h2 : optionals.length ≠ 0) :
    parallelNormalize necessities optionals tIn =
      Except.error (ConfigErr.refError "allTimeOption") := by
  unfold parallelNormalize
  rw [if_neg h1, if_neg h2]

theorem timeOptionValidationUnreachable_witness :
    parallelNormalize [retChild Unit Unit] [retChild Unit Unit]
        (some skipOptionals) =
      Except.error (ConfigErr.refError "allTimeOption") :=
  timeOptionValidationUnreachable [retChild Unit Unit] [retChild Unit Unit]
    (some skipOptionals) (by decide) (by decide)

/-- C4: the shape check's condition is
`requestors.some(r => isFunction(r) || r.length < 1 || r.length > 2)`,
missing the negation on `isFunction(r)`: a list holding a genuine function
of arity 1 is rejected with the configuration reason, while a non-callable
with no numeric `length` property is accepted. -/
theorem checkRequestorsInverted {α ρ : Type} (good bad : Child α ρ)
    (hgf : good.isFunction = true)
    (hbf : bad.isFunction = false) (hbl : bad.length = none) :
    checkRequestors [good] =
      Except.error (makeReason none
        (some "Requestors must be functions of 1 or 2 arguments!")
        (some Evidence.arrArg)) ∧
    checkRequestors [bad] = Except.ok () := by
  constructor
  · unfold checkRequestors
    rw [if_pos]
    simp [hgf]
  · unfold checkRequestors
    rw [if_neg]
    simp [hbf, hbl, jsLtNum, jsGtNum]

theorem checkRequestorsInverted_witness :
    checkRequestors [({ isFunction := true, length := some 1
                      , onLaunch := fun _ => LaunchBehavior.ret none } :
                      Child Unit Unit)] =
      Except.error (makeReason none
        (some "Requestors must be functions of 1 or 2 arguments!")
        (some Evidence.arrArg)) ∧
    checkRequestors [({ isFunction := false, length := none
                      , onLaunch := fun _ => LaunchBehavior.ret none } :
                      Child Unit Unit)] = Except.ok () :=
  checkRequestorsInverted _ _ rfl rfl rfl

/-- C2: with a non-empty necessities list and no optionals, the
normalisation assigns `TimeOption.IGNORE_OPTIONALS_IF_TIME_REMAINS`, a key
that does not exist on the frozen TimeOption object, so the effective
`timeOption` is `undefined`—not SKIP_OPTIONALS_IF_TIME_REMAINS—and the
timeout callback, which only has branches for REQUIRE_NECESSITIES and
TRY_OPTIONALS_IF_TIME_REMAINS, does nothing when the time limit elapses: no
child is cancelled, the receiver is not invoked, no effect is produced. -/
theorem timeoutWithoutOptionalsInert {α ρ : Type}
    (necessities : List (Child α ρ)) (tIn : Option String) (fname : String)
    (N : Nat) (tl : ℚ) (msg : Option α) (s : EngState α ρ (ParState α ρ))
    (hne : necessities.length ≠ 0) (hp : s.pstate.timeOption = none) :
    parallelNormalize necessities [] tIn =
      Except.ok (necessities, necessities.length, none) ∧
    (timerStep (mkParallelEngine necessities fname N tl msg) s).2 = [] ∧
    (timerStep (mkParallelEngine necessities fname N tl msg) s).1.cancellors
      = s.cancellors := by
  have hout : (mkParallelEngine necessities fname N tl msg).policy.onTimeout
      s.pstate = { pstate := s.pstate, cancelWith := none, recv := none } := by
    simp [mkParallelEngine, parallelPolicy, parallelOnTimeout, hp,
      requireNecessities, tryOptionals]
  refine ⟨?_, ?_, ?_⟩
  · unfold parallelNormalize
    rw [if_neg hne]
    rfl
  · unfold timerStep
    by_cases ha : s.timerArmed
    · rw [if_pos ha]
      dsimp only
      rw [hout]
      simp [applyOut]
    · rw [if_neg ha]
  · unfold timerStep
    by_cases ha : s.timerArmed
    · rw [if_pos ha]
      dsimp only
      rw [hout]
      simp [applyOut]
    · rw [if_neg ha]

theorem timeoutWithoutOptionalsInert_witness :
    parallelNormalize [retChild Unit Unit] [] (some skipOptionals) =
      Except.ok ([retChild Unit Unit], 1, none) ∧
    (timerStep (mkParallelEngine [retChild Unit Unit] parallelName 1 5 none)
      (initState (mkParallelEngine [retChild Unit Unit] parallelName 1 5
        none) true 0 (parInit Unit Unit 1 1 none))).2 = [] ∧
    (timerStep (mkParallelEngine [retChild Unit Unit] parallelName 1 5 none)
      (initState (mkParallelEngine [retChild Unit Unit] parallelName 1 5
        none) true 0 (parInit Unit Unit 1 1 none))).1.cancellors =
      (initState (mkParallelEngine [retChild Unit Unit] parallelName 1 5
        none) true 0 (parInit Unit Unit 1 1 none)).cancellors :=
  timeoutWithoutOptionalsInert [retChild Unit Unit] (some skipOptionals)
    parallelName 1 5 none _ (by decide) rfl

/-- C10: `run` validates the throttle only after the time-limit block has
run: a valid positive numeric time limit arms the one-shot timer first, so
when the throttle then fails its check (it is present and not a
non-negative safe integer) the configuration reason is thrown with the
timer already armed and `run` never reaches its `return cancel`
statement—the caller holds no way to disarm the timer, whose callback will
still fire when the limit elapses. -/
theorem timerArmedBeforeThrottleCheck (fname : String) (tl : ℚ)
    (throttle : JsArg) (htl : 0 < tl)
    (hbadNum : ∀ q, throttle = JsArg.num q →
      ¬(isSafeInteger q = true ∧ 0 ≤ q))
    (hbadUndef : throttle ≠ JsArg.undef) :
    (runSetup fname (JsArg.num tl) throttle).timerArmed = some tl ∧
    ((runSetup fname (JsArg.num tl) throttle).thrown).isSome = true := by
  have hr : runSetup fname (JsArg.num tl) throttle =
      runThrottlePart fname (some tl) throttle := by
    unfold runSetup
    dsimp only
    rw [if_neg (not_lt.mpr (le_of_lt htl)), if_pos htl]
  rw [hr]
  cases throttle with
  | undef => exact absurd rfl hbadUndef
  | num q =>
      have hb := hbadNum q rfl
      unfold runThrottlePart
      have hcond : (isSafeInteger q && decide (0 ≤ q)) = false := by
        rcases h1 : isSafeInteger q with _ | _
        · rfl
        · rcases h2 : decide (0 ≤ q) with _ | _
          · rfl
          · exact absurd ⟨h1, of_decide_eq_true h2⟩ hb
      simp [hcond]
  | other =>
      unfold runThrottlePart
      simp

/-- C1: for every composite built on the parallel policy (`parallel`,
`sequence`) or the race policy (`race`, `fallback`), over any event trace
whatsoever—duplicate completions from ill-behaved children that invoke
their receivers more than once included—the composite receiver is invoked
at most once; and over any trace without caller cancellation that ends in
normal termination (every child's action has run, or the engine cancelled
itself on finish, failure or timeout) it is invoked exactly once. -/
theorem receiverExactlyOnce {α ρ : Type} (children : List (Child α ρ))
    (fname : String) (N : Nat) (tl : ℚ) (msg : Option α) (armed : Bool)
    (throttle : Nat) (tOpt : Option String)
    (hlen : 1 ≤ children.length) :
    (∀ evs : List (Event α ρ),
      recvCount (runTrace (mkParallelEngine children fname N tl msg)
        (initState (mkParallelEngine children fname N tl msg) armed throttle
          (parInit α ρ children.length N tOpt)) evs).2 ≤ 1 ∧
      recvCount (runTrace (mkRaceEngine children fname tl msg)
        (initState (mkRaceEngine children fname tl msg) armed throttle
          { numberPending := (children.length : Int) }) evs).2 ≤ 1) ∧
    (∀ evs : List (Event α ρ), (∀ e ∈ evs, e.isCancel = false) →
      (Quiescent (mkParallelEngine children fname N tl msg)
          (runTrace (mkParallelEngine children fname N tl msg)
            (initState (mkParallelEngine children fname N tl msg) armed
              throttle (parInit α ρ children.length N tOpt)) evs).1 ∨
        (runTrace (mkParallelEngine children fname N tl msg)
          (initState (mkParallelEngine children fname N tl msg) armed
            throttle (parInit α ρ children.length N tOpt)) evs).1.cancellors
          = none) →
      recvCount (runTrace (mkParallelEngine children fname N tl msg)
        (initState (mkParallelEngine children fname N tl msg) armed throttle
          (parInit α ρ children.length N tOpt)) evs).2 = 1) ∧
    (∀ evs : List (Event α ρ), (∀ e ∈ evs, e.isCancel = false) →
      (Quiescent (mkRaceEngine children fname tl msg)
          (runTrace (mkRaceEngine children fname tl msg)
            (initState (mkRaceEngine children fname tl msg) armed throttle
              { numberPending := (children.length : Int) }) evs).1 ∨
        (runTrace (mkRaceEngine children fname tl msg)
          (initState (mkRaceEngine children fname tl msg) armed throttle
            { numberPending := (children.length : Int) }) evs).1.cancellors
          = none) →
      recvCount (runTrace (mkRaceEngine children fname tl msg)
        (initState (mkRaceEngine children fname tl msg) armed throttle
          { numberPending := (children.length : Int) }) evs).2 = 1) := by
  refine ⟨fun evs => ⟨?_, ?_⟩, fun evs hnc hend => ?_, fun evs hnc hend => ?_⟩
  · exact atMostOnce _ ((parallelPolicyOK α ρ N fname tl).recvCancels)
      armed throttle _ evs
  · exact atMostOnce _ ((racePolicyOK α ρ fname tl).recvCancels)
      armed throttle _ evs
  · exact exactlyOnceNormal _ (fun p => p.numberPending)
      (parallelPolicyOK α ρ N fname tl) armed throttle _ hlen rfl evs hnc
      hend
  · exact exactlyOnceNormal _ (fun p => p.numberPending)
      (racePolicyOK α ρ fname tl) armed throttle _ hlen rfl evs hnc hend

theorem receiverExactlyOnce_witness :
    recvCount (runTrace
      (mkParallelEngine [retChild Unit Unit] parallelName 1 0 none)
      (initState (mkParallelEngine [retChild Unit Unit] parallelName 1 0
        none) false 0 (parInit Unit Unit 1 1 (some skipOptionals)))
      [Event.dispatch, Event.complete 0 (some ()) none,
       Event.complete 0 (some ()) none]).2 = 1 :=
  (receiverExactlyOnce [retChild Unit Unit] parallelName 1 0 none false 0
    (some skipOptionals) (by decide)).2.1
    [Event.dispatch, Event.complete 0 (some ()) none,
     Event.complete 0 (some ()) none] (by decide) (Or.inr rfl)

/-- C5: for `sequence` over a chain of pure mapping requestors, under the
synchronous schedule the success value produced by child `j` (its action's
`value`, the fold of the first `j+1` functions) is exactly the message
child `j+1` is launched with (the fold of the first `j+1` functions), and
the composite receiver fires once with the last child's value—the left
fold of all the functions over the initial message, not an array. -/
theorem sequenceThreading {α : Type} (fs : List (α → α)) (m : α)
    (hne : 0 < fs.length) :
    recvMsgs (syncExec (seqEngine α fs m) (mapCv fs) fs.length
        (initState (seqEngine α fs m) false 1
          (parInit α Unit fs.length fs.length none))).2 =
      [{ value := some (RecvValue.item (fs.foldl (fun a f => f a) m))
       , reason := none }] ∧
    launchList (syncExec (seqEngine α fs m) (mapCv fs) fs.length
        (initState (seqEngine α fs m) false 1
          (parInit α Unit fs.length fs.length none))).2 =
      (List.range fs.length).map (fun j => (j, some (prefixFold fs m j))) ∧
    actionList (syncExec (seqEngine α fs m) (mapCv fs) fs.length
        (initState (seqEngine α fs m) false 1
          (parInit α Unit fs.length fs.length none))).2 =
      (List.range fs.length).map
        (fun j =>
          (j, some (prefixFold fs m (j + 1)), (none : Option Unit))) := by
  rw [seq_init fs m hne]
  have h0 := seq_exec fs m fs.length 0 (fun _ => none) hne (by omega)
  obtain ⟨hr, hl, ha⟩ := h0
  simp only [prefixFold_zero] at hr hl ha
  refine ⟨?_, ?_, ?_⟩
  · rw [hr]
    have : prefixFold fs m fs.length = fs.foldl (fun a f => f a) m := by
      unfold prefixFold
      rw [List.take_length]
    rw [this]
  · rw [hl, List.range_eq_range']
  · rw [ha, List.range_eq_range']

theorem sequenceThreading_witness :
    recvMsgs (syncExec
      (seqEngine Int [fun x => x + 1, fun x => x * 2, fun x => x - 3] 10)
      (mapCv [fun x => x + 1, fun x => x * 2, fun x => x - 3]) 3
      (initState
        (seqEngine Int [fun x => x + 1, fun x => x * 2, fun x => x - 3] 10)
        false 1 (parInit Int Unit 3 3 none))).2 =
      [{ value := some (RecvValue.item (19 : Int)), reason := none }] := by
  have h := (sequenceThreading
    [fun x : Int => x + 1, fun x => x * 2, fun x => x - 3] 10
    (by decide)).1
  norm_num [List.foldl] at h
  exact h

/-- C6 (amended): a completion carrying a present value accepted by a live
race engine makes the winner's action fire once, every still-stored sibling
cancellor fire (in index order) with the reason `makeReason` builds from
the "Cancelling loser!" excuse and the winner's index—an object that in
fact carries only that index as evidence and no race-loser tag, since the
`{...error, evidence}` spread copies nothing of the Error—and the composite
receiver fire once with the winner's `{value, reason}`; the engine is then
cancelled with its timer disarmed, so the rest of the trace—queued
`startRequestor` tasks included—produces no effect at all: no child not
yet launched is ever started (with a throttle below the list length, such
children exist and are never started). -/
theorem raceWinnerCancelsLosers {α ρ : Type} (children : List (Child α ρ))
    (fname : String) (tl : ℚ) (msg : Option α) (i : Nat) (v : α)
    (r : Option ρ) (s : EngState α ρ RaceState)
    (slots : Nat → Option Cancellor)
    (hc : s.cancellors = some slots) (hg : s.gates i = Gate.running)
    (evs : List (Event α ρ)) :
    (completeStep (mkRaceEngine children fname tl msg) i (some v) r s).2 =
      Effect.action i (some v) r ::
        cancelBurst children.length (Function.update slots i none)
          (RVal.made (loserReason fname i)) ++
        [Effect.recv { value := some (RecvValue.item v)
                     , reason := r.map RVal.child }] ∧
    (runTrace (mkRaceEngine children fname tl msg)
      (completeStep (mkRaceEngine children fname tl msg) i (some v) r s).1
      evs).2 = [] := by
  obtain ⟨heff, hcanc, htimer⟩ :=
    race_complete_win children fname tl msg i v r s slots hc hg
  exact ⟨heff, (runTrace_dead _ evs _ hcanc htimer).2.2⟩

/-- The mid-race state the C6 witness completes from: both children
launched, child 1 holding a stored cancellor, the timer armed. -/
def c6State : EngState Unit Unit RaceState :=
  { cancellors := some fun j =>
      if j = 1 then some { throws := false } else none
  , gates := fun _ => Gate.running
  , nextNumber := 2
  , timerArmed := true
  , queue := []
  , pstate := { numberPending := 2 } }

theorem raceWinnerCancelsLosers_witness :
    (completeStep (mkRaceEngine [retChild Unit Unit, retChild Unit Unit]
        raceName 0 none) 0 (some ()) none c6State).2 =
      [Effect.action 0 (some ()) none,
       Effect.cancelChild 1 (RVal.made (loserReason raceName 0)),
       Effect.recv { value := some (RecvValue.item ()), reason := none }] ∧
    (runTrace (mkRaceEngine [retChild Unit Unit, retChild Unit Unit]
        raceName 0 none)
      (completeStep (mkRaceEngine [retChild Unit Unit, retChild Unit Unit]
        raceName 0 none) 0 (some ()) none c6State).1
      [Event.dispatch, Event.timer, Event.complete 1 (some ()) none]).2 =
      [] := by
  have h := raceWinnerCancelsLosers [retChild Unit Unit, retChild Unit Unit]
    raceName 0 none 0 () none c6State
    (fun j => if j = 1 then some { throws := false } else none) rfl rfl
    [Event.dispatch, Event.timer, Event.complete 1 (some ()) none]
  refine ⟨?_, h.2⟩
  rw [h.1]
  rfl

/-- C6, counterexample to the spec's wording: the reason race's action
hands each loser's cancellor is not "race-loser-tagged"—the returned
`makeReason` object is `{evidence: winnerIndex}` and nothing else, equal to
the reason built with no factory name and no excuse at all (`{...error,
evidence}` copies no non-enumerable Error property, so neither the
"Cancelling loser!" excuse nor the factory name survives; `makeReason`'s
inverted excuse conditional would have dropped a present excuse from the
message even before the spread).  At a concrete winning completion the
only loser-cancellor invocation carries exactly that untagged reason. -/
theorem raceWinnerCancelsLosers_counterexample :
    loserReason raceName 0 = makeReason none none (some (Evidence.idx 0)) ∧
    cancelCalls (completeStep
      (mkRaceEngine [retChild Unit Unit, retChild Unit Unit] raceName 0
        none) 0 (some ()) none c6State).2 =
      [(1, RVal.made { evidence := some (Evidence.idx 0) })] := by
  exact ⟨rfl, by decide⟩

/-- C7: calling the composite's cancellor any number of times is
idempotent: the first call disarms the timer, invokes each still-stored
child cancellor exactly once in index order with the supplied (or default)
reason—`cancelBurst` walks the whole array regardless of which cancellors
throw, the `try/catch` swallowing their exceptions—and destroys the
cancellor array; every later `cancel` call is a strict no-op, and every
child completion delivered after cancellation is a strict no-op that
produces no action and no receiver invocation. -/
theorem compositeCancelIdempotent {α ρ π : Type} (E : Engine α ρ π)
    (arg : Option (RVal ρ)) (s : EngState α ρ π)
    (slots : Nat → Option Cancellor) (hc : s.cancellors = some slots) :
    engineCancel E arg s =
      ({ s with timerArmed := false, cancellors := none },
       cancelBurst E.children.length slots
         (cancelReason E.factoryName arg)) ∧
    (∀ args : List (Option (RVal ρ)),
      runTrace E { s with timerArmed := false, cancellors := none }
        (args.map Event.cancel) =
        ({ s with timerArmed := false, cancellors := none }, [])) ∧
    ∀ (i : Nat) (v : Option α) (r : Option ρ),
      completeStep E i v r
        { s with timerArmed := false, cancellors := none } =
        ({ s with timerArmed := false, cancellors := none }, []) := by
  refine ⟨engineCancel_live E arg s slots hc, ?_, ?_⟩
  · intro args
    exact runTrace_cancels_after_cancel E _ rfl rfl args
  · intro i v r
    exact completeStep_after_cancel E i v r _ rfl

/-- The engine and live state the C7 witness cancels: two children, both
cancellors stored, the one at index 0 throwing when invoked. -/
def c7State : EngState Unit Unit RaceState :=
  { cancellors := some fun j =>
      if j = 0 then some { throws := true } else some { throws := false }
  , gates := fun _ => Gate.running
  , nextNumber := 2
  , timerArmed := true
  , queue := []
  , pstate := { numberPending := 2 } }

theorem compositeCancelIdempotent_witness :
    engineCancel (mkRaceEngine [retChild Unit Unit, retChild Unit Unit]
        raceName 0 none) none c7State =
      ({ c7State with timerArmed := false, cancellors := none },
       [Effect.cancelChild 0 (RVal.made (makeReason (some raceName)
          (some "Cancel!") none)),
        Effect.cancelChild 1 (RVal.made (makeReason (some raceName)
          (some "Cancel!") none))]) ∧
    (∀ args : List (Option (RVal Unit)),
      runTrace (mkRaceEngine [retChild Unit Unit, retChild Unit Unit]
          raceName 0 none)
        { c7State with timerArmed := false, cancellors := none }
        (args.map Event.cancel) =
        ({ c7State with timerArmed := false, cancellors := none }, [])) ∧
    ∀ (i : Nat) (v : Option Unit) (r : Option Unit),
      completeStep (mkRaceEngine [retChild Unit Unit, retChild Unit Unit]
          raceName 0 none) i v r
        { c7State with timerArmed := false, cancellors := none } =
        ({ c7State with timerArmed := false, cancellors := none }, []) := by
  have h := compositeCancelIdempotent
    (mkRaceEngine [retChild Unit Unit, retChild Unit Unit] raceName 0 none)
    none c7State
    (fun j =>
      if j = 0 then some { throws := true } else some { throws := false })
    rfl
  refine ⟨?_, h.2.1, h.2.2⟩
  rw [h.1]
  rfl

/-- C9 (amended): when a child throws synchronously before invoking its
receiver, the `catch` block runs the action once for that child with the
caught value itself as the reason—passed through raw, with no wrapping
object attached—and then synchronously tries the next child; over any
trace the action runs at most once per child. -/
theorem childThrowRawReason {α ρ : Type} (e : ρ) (c1 : Child α ρ)
    (msg : Option α) (fname : String) (tl : ℚ) (can1 : Option Cancellor)
    (hc1 : c1.onLaunch msg = LaunchBehavior.ret can1) :
    (launchStep (mkRaceEngine
        [{ isFunction := true, length := some 2
         , onLaunch := fun _ => LaunchBehavior.thr e }, c1] fname tl msg)
      msg
      (initState (mkRaceEngine
          [{ isFunction := true, length := some 2
           , onLaunch := fun _ => LaunchBehavior.thr e }, c1] fname tl msg)
        false 0 { numberPending := 2 })).2 =
      [Effect.launch 0 msg, Effect.action 0 none (some e),
       Effect.launch 1 msg] ∧
    ∀ (armed : Bool) (throttle : Nat) (p0 : RaceState) (i0 : Nat)
      (evs : List (Event α ρ)),
      actionCountFor i0 (runTrace (mkRaceEngine
          [{ isFunction := true, length := some 2
           , onLaunch := fun _ => LaunchBehavior.thr e }, c1] fname tl msg)
        (initState (mkRaceEngine
            [{ isFunction := true, length := some 2
             , onLaunch := fun _ => LaunchBehavior.thr e }, c1] fname tl
            msg)
          armed throttle p0) evs).2 ≤ 1 := by
  constructor
  · simp only [launchStep, startRequestorFuel, initState, mkRaceEngine,
      racePolicy, raceOnAction, applyOut]
    norm_num
    rw [hc1]
  · intro armed throttle p0 i0 evs
    exact actionAtMostOncePerChild _ armed throttle p0 i0 evs

theorem childThrowRawReason_witness :
    (launchStep (mkRaceEngine
        [{ isFunction := true, length := some 2
         , onLaunch := fun _ => LaunchBehavior.thr (7 : Nat) }
        , retChild Unit Nat] raceName 0 none)
      none
      (initState (mkRaceEngine
          [{ isFunction := true, length := some 2
           , onLaunch := fun _ => LaunchBehavior.thr (7 : Nat) }
          , retChild Unit Nat] raceName 0 none)
        false 0 { numberPending := 2 })).2 =
      [Effect.launch 0 none, Effect.action 0 none (some (7 : Nat)),
       Effect.launch 1 none] :=
  (childThrowRawReason 7 (retChild Unit Nat) none raceName 0 none rfl).1

/-- The two shapes of reason C9's spec sentence distinguishes on the
thrown-value channel: the bare thrown value itself, or an object wrapping a
cause together with index evidence. -/
inductive ThrownReason where
  | rawValue
  | causeWrapper (evidenceIdx : Nat)
deriving DecidableEq, Repr

/-- The race engine over a child that throws the bare `rawValue` followed
by a well-behaved child. -/
def throwEngine : Engine Unit ThrownReason RaceState :=
  mkRaceEngine
    [{ isFunction := true, length := some 2
     , onLaunch := fun _ => LaunchBehavior.thr ThrownReason.rawValue }
    , retChild Unit ThrownReason] raceName 0 none

/-- C9, counterexample to the spec's wording: the `catch` block passes the
caught value itself as the action's reason, so the trace of a child that
throws `rawValue` carries `rawValue` raw, and no effect of the trace
carries a `causeWrapper` object—no reason "whose cause is the thrown value
and whose evidence is the child's index" is ever built. -/
theorem childThrowRawReason_counterexample :
    (launchStep throwEngine none
      (initState throwEngine false 0 { numberPending := 2 })).2 =
      [Effect.launch 0 none,
       Effect.action 0 none (some ThrownReason.rawValue),
       Effect.launch 1 none] ∧
    ∀ eff ∈ (launchStep throwEngine none
      (initState throwEngine false 0 { numberPending := 2 })).2,
      ∀ (i : Nat) (w : Option Unit) (j : Nat),
        eff ≠ Effect.action i w (some (ThrownReason.causeWrapper j)) := by
  have h1 : (launchStep throwEngine none
      (initState throwEngine false 0 { numberPending := 2 })).2 =
      [Effect.launch 0 none,
       Effect.action 0 none (some ThrownReason.rawValue),
       Effect.launch 1 none] := by decide
  refine ⟨h1, ?_⟩
  intro eff hm i w j
  rw [h1] at hm
  simp only [List.mem_cons, List.not_mem_nil, or_false] at hm
  rcases hm with rfl | rfl | rfl <;> simp

theorem timerArmedBeforeThrottleCheck_witness :
    (runSetup parallelName (JsArg.num 100) (JsArg.num (-1))).timerArmed =
      some 100 ∧
    ((runSetup parallelName (JsArg.num 100) (JsArg.num (-1))).thrown).isSome
      = true :=
  timerArmedBeforeThrottleCheck parallelName 100 (JsArg.num (-1))
    (by norm_num)
    (by
      rintro q h hq
      cases h
      exact absurd hq.2 (by norm_num))
    (by simp)

end Parsec
